import Mathlib

/-!
Verification of the alloy install ledger and its reverse-replay engine.

The Go sources shallowly embedded here are `internal/ledger/types.go`,
`internal/ledger/replay.go`, `internal/ledger/record.go`,
`internal/ledger/ledger.go` and `internal/installer/installer.go`.
Filesystem state is passed explicitly; machine I/O errors that the
abstraction cannot produce (permission failures, short reads) are noted at
the definition they would affect.
-/

set_option linter.unusedVariables false

namespace Alloy

/-- Absolute filesystem paths, abstracted as their list of components
(so `/usr/local/bin` is `["usr", "local", "bin"]`). The Go source uses
plain strings together with `filepath.Dir`; on clean absolute paths that
function is exactly `List.dropLast` here. -/
abbrev Path := List String

/-- One filesystem object. Regular-file content is abstracted by its
SHA-256 digest (the hex string the Go side stores in `checksum` fields):
the record and replay code never inspects content except through
`Checksum` / `VerifyChecksum` and byte-for-byte copies, so the
digest-for-content abstraction is faithful up to hash collisions.
Modification times are outside the abstraction: Go's `os.Chtimes` changes
only them and is therefore the identity here. -/
inductive FsObj
  | file (checksum : String) (mode : Nat)
  | dir (mode : Nat)
  | symlink (target : String) (mode : Nat)
deriving DecidableEq, Repr

/-- Filesystem state: an association list from path to object
(first binding wins, mirroring a finite map). -/
abbrev FS := List (Path × FsObj)

/-- Lookup of the object at a path (Go `os.Lstat`: `none` is the
`os.IsNotExist` case). -/
def fsGet : FS → Path → Option FsObj
  | [], _ => none
  | (q, o) :: rest, p => if q = p then some o else fsGet rest p

/-- Bind a path to an object, replacing any existing binding. -/
def fsSet : FS → Path → FsObj → FS
  | [], p, o => [(p, o)]
  | (q, b) :: rest, p, o =>
      if q = p then (p, o) :: rest else (q, b) :: fsSet rest p o

/-- Drop every binding of a path (Go `os.Remove` once its preconditions
have been checked). -/
def fsRemove : FS → Path → FS
  | [], _ => []
  | (q, b) :: rest, p =>
      if q = p then fsRemove rest p else (q, b) :: fsRemove rest p

/-- Does the directory at `p` contain anything, i.e. is some strictly
longer path bound? Drives the "directory not empty" branch of
`os.Remove`. -/
def fsHasChild (fs : FS) (p : Path) : Bool :=
  fs.any fun qo => p.isPrefixOf qo.1 && qo.1 != p

/-- The nonempty prefixes of a path, shortest first: the chain of
directories `os.MkdirAll` walks. -/
def pathAncestors : Path → List Path
  | [] => []
  | x :: rest => [x] :: (pathAncestors rest).map (x :: ·)

/-- Create each missing directory along a chain of paths, outermost
first, with mode `0755` (the creating half of `os.MkdirAll`). -/
def mkdirChain (qs : List Path) (fs : FS) : FS :=
  qs.foldl (fun acc q => if (fsGet acc q).isSome then acc else fsSet acc q (.dir 0o755)) fs

/-- Go `os.MkdirAll(p, 0755)`. It fails (with `ENOTDIR`, before creating
anything) when some prefix of `p` exists as a non-directory; otherwise it
creates each missing directory along the chain with mode `0755`. -/
def mkdirAll (fs : FS) (p : Path) : Except String FS :=
  if (pathAncestors p).all fun q =>
      match fsGet fs q with
      | some (.dir _) => true
      | none => true
      | some _ => false
  then .ok (mkdirChain (pathAncestors p) fs)
  else .error "mkdir: not a directory"

/-- Go `os.Remove(p)` with the error discarded (the unchecked
`os.Remove(entry.Path)` in `replayFileOverwrite`): removes a file, a
symlink or an empty directory; leaves the state unchanged when the path
is absent or is a non-empty directory. -/
def osRemoveIgnore (fs : FS) (p : Path) : FS :=
  match fsGet fs p with
  | none => fs
  | some (.dir _) => if fsHasChild fs p then fs else fsRemove fs p
  | some _ => fsRemove fs p

/-- The `copyFile` helper of `replay.go`: open `src`, create/truncate
`dst`, copy the bytes, fsync. Creating over an existing regular file
keeps that file's mode; creating a fresh file requires the parent
directory and uses `os.Create`'s default permission bits (`0666`; the
process umask is outside the abstraction). A directory at `dst`, or a
symlink at `dst` (whose traversal this model does not follow), is the
error path. -/
def copyFile (fs : FS) (src dst : Path) : Except String FS :=
  match fsGet fs src with
  | some (.file c _) =>
      match fsGet fs dst with
      | some (.file _ m) => .ok (fsSet fs dst (.file c m))
      | some _ => .error "create destination"
      | none =>
          if dst.dropLast.isEmpty then .ok (fsSet fs dst (.file c 0o666))
          else
            match fsGet fs dst.dropLast with
            | some (.dir _) => .ok (fsSet fs dst (.file c 0o666))
            | _ => .error "create destination"
  | some _ => .error "copy: source not a regular file"
  | none => .error "open source"

/-- Go `os.Chmod` with the error discarded (the replayer's
log-and-continue chmod after a restore). Symlink chmod would follow the
link; the replayer only ever chmods a just-restored regular file, so the
symlink case is left as the identity. -/
def chmodIgnore (fs : FS) (p : Path) (mode : Nat) : FS :=
  match fsGet fs p with
  | some (.file c _) => fsSet fs p (.file c mode)
  | some (.dir _) => fsSet fs p (.dir mode)
  | some (.symlink _ _) => fs
  | none => fs

/-- Operation kinds are strings on the Go side (`type Op string`), which
is what lets unknown operation strings reach the replayer. -/
def opFileCreate : String := "file_create"

def opFileDelete : String := "file_delete"

def opFileOverwrite : String := "file_overwrite"

def opDirCreate : String := "dir_create"

def opSymlinkCreate : String := "symlink_create"

def opHardlinkCreate : String := "hardlink_create"

/-- The `OriginalFile` sub-record of `types.go`: pre-existing state
captured before an overwrite or delete. Go's empty string / zero values
stand for "unset"; the unset `BackupPath` is the empty path `[]`. -/
structure OriginalFile where
  mode : Nat := 0
  uid : Nat := 0
  gid : Nat := 0
  size : Int := 0
  checksum : String := ""
  backupPath : Path := []
  target : String := ""
  modTime : Nat := 0
deriving DecidableEq, Repr

/-- A ledger entry (`types.go`). `ts` is the UTC instant as an abstract
tick count; `0` is Go's zero `time.Time`. -/
structure Entry where
  op : String
  path : Path
  ts : Nat := 0
  mode : Nat := 0
  uid : Nat := 0
  gid : Nat := 0
  size : Int := 0
  checksum : String := ""
  target : String := ""
  original : Option OriginalFile := none
deriving DecidableEq, Repr

/-- The ledger header (`types.go`). -/
structure Header where
  version : Nat := 1
  package : String := ""
  installedAt : Nat := 0
  source : String := ""
  sourceChecksum : String := ""
deriving DecidableEq, Repr

/-- The supported ledger format version. -/
def currentVersion : Nat := 1

/-- The in-memory ledger: header plus entries in chronological order. -/
structure Ledger where
  header : Header := {}
  entries : List Entry := []
deriving DecidableEq, Repr

/-- The error taxonomy of `replay.go`: the sentinel values `errSkipped`
and `errModified`, and everything else as a wrapped message
(`errors.Is` against a sentinel is constructor equality here). -/
inductive ReplayErrKind
  | skipped
  | modified
  | other (msg : String)
deriving DecidableEq, Repr

/-- A per-entry replay failure (`ReplayError` in `replay.go`). -/
structure ReplayError where
  entry : Entry
  err : ReplayErrKind
deriving DecidableEq, Repr

/-- The accumulated outcome of a reverse replay (`ReplayResult`). -/
structure ReplayResult where
  processed : Nat := 0
  skipped : Nat := 0
  errors : List ReplayError := []
  modifiedFiles : List Path := []
deriving DecidableEq, Repr

/-- Replay configuration (`ReplayOptions`). The `OnEntry` callback is an
observation, not state; its call sequence is returned as a trace by
`ReverseReplayGo` below instead of being a function field. -/
structure ReplayOptions where
  dryRun : Bool := false
  force : Bool := false
  verbose : Bool := false
  keepBackups : Bool := false
deriving DecidableEq, Repr

/-- Go `VerifyChecksum(path, expected)` folded together with its caller's
error handling: distinguishes "file absent" (`os.IsNotExist`) from other
read failures. A directory at the path is the non-not-exist error (Go
reads `EISDIR`); a symlink would be followed, which this model does not
do, so it is also routed to the non-not-exist error. -/
inductive ChecksumOutcome
  | absent
  | readErr
  | got (checksum : String)
deriving DecidableEq, Repr

/-- Current digest of the regular file at a path. -/
def checksumAt (fs : FS) (p : Path) : ChecksumOutcome :=
  match fsGet fs p with
  | none => .absent
  | some (.file c _) => .got c
  | some _ => .readErr

/-- `replayFileCreate`: undo a file creation by deleting the file, after
the drift check against the recorded checksum. Returns the action label,
the (optional) per-entry error, and the next filesystem state. -/
def replayFileCreate (entry : Entry) (opts : ReplayOptions) (fs : FS) :
    String × Option ReplayErrKind × FS :=
  match fsGet fs entry.path with
  | none => ("skip (not found)", some .skipped, fs)
  | some obj =>
      match obj with
      | .file c _ =>
          if entry.checksum ≠ "" && c != entry.checksum then
            ("modified", some .modified, fs)
          else if opts.dryRun then
            ("would delete", none, fs)
          else
            ("deleted", none, fsRemove fs entry.path)
      | _ => ("skip (not a file)", some .skipped, fs)

/-- `replayFileDelete`: restore a deleted file from its backup. -/
def replayFileDelete (entry : Entry) (opts : ReplayOptions) (fs : FS) :
    String × Option ReplayErrKind × FS :=
  match entry.original with
  | none => ("error", some (.other "no original file information"), fs)
  | some orig =>
      if (fsGet fs entry.path).isSome then
        ("skip (exists)", some .skipped, fs)
      else if orig.backupPath = [] then
        ("error", some (.other "no backup path"), fs)
      else if opts.dryRun then
        ("would restore", none, fs)
      else
        match mkdirAll fs entry.path.dropLast with
        | .error _ => ("error", some (.other "create parent directory"), fs)
        | .ok fs1 =>
            match copyFile fs1 orig.backupPath entry.path with
            | .error _ => ("error", some (.other "restore from backup"), fs1)
            | .ok fs2 =>
                let fs3 := chmodIgnore fs2 entry.path orig.mode
                let fs4 := if !opts.keepBackups then osRemoveIgnore fs3 orig.backupPath else fs3
                ("restored", none, fs4)

/-- `replayFileOverwrite`: restore the displaced original from its
backup, after a drift check against the checksum recorded for the
installed file. A missing destination passes the drift check (the
`os.IsNotExist` exemptions on lines 228 and 231 of `replay.go`). -/
def replayFileOverwrite (entry : Entry) (opts : ReplayOptions) (fs : FS) :
    String × Option ReplayErrKind × FS :=
  match entry.original with
  | none => ("error", some (.other "no original file information"), fs)
  | some orig =>
      if orig.backupPath = [] then
        ("error", some (.other "no backup path"), fs)
      else
        match
          if entry.checksum ≠ "" then
            match checksumAt fs entry.path with
            | .readErr => some ("error", some (ReplayErrKind.other "verify checksum"), fs)
            | .got c =>
                if c ≠ entry.checksum then some ("modified", some ReplayErrKind.modified, fs)
                else none
            | .absent => none
          else none
        with
        | some early => early
        | none =>
            if opts.dryRun then
              ("would restore", none, fs)
            else
              let fs0 := osRemoveIgnore fs entry.path
              match mkdirAll fs0 entry.path.dropLast with
              | .error _ => ("error", some (.other "create parent directory"), fs0)
              | .ok fs1 =>
                  match copyFile fs1 orig.backupPath entry.path with
                  | .error _ => ("error", some (.other "restore from backup"), fs1)
                  | .ok fs2 =>
                      let fs3 := chmodIgnore fs2 entry.path orig.mode
                      let fs4 := if !opts.keepBackups then osRemoveIgnore fs3 orig.backupPath else fs3
                      ("restored", none, fs4)

/-- `replayDirCreate`: remove the directory if it is empty. -/
def replayDirCreate (entry : Entry) (opts : ReplayOptions) (fs : FS) :
    String × Option ReplayErrKind × FS :=
  match fsGet fs entry.path with
  | none => ("skip (not found)", some .skipped, fs)
  | some obj =>
      match obj with
      | .dir _ =>
          if opts.dryRun then
            ("would remove", none, fs)
          else if fsHasChild fs entry.path then
            ("skip (not empty)", some .skipped, fs)
          else
            ("removed", none, fsRemove fs entry.path)
      | _ => ("skip (not a directory)", some .skipped, fs)

/-- `replaySymlinkCreate`: remove the link, after checking the current
link target against the recorded one. -/
def replaySymlinkCreate (entry : Entry) (opts : ReplayOptions) (fs : FS) :
    String × Option ReplayErrKind × FS :=
  match fsGet fs entry.path with
  | none => ("skip (not found)", some .skipped, fs)
  | some obj =>
      match obj with
      | .symlink target _ =>
          if entry.target ≠ "" && target != entry.target then
            ("modified", some .modified, fs)
          else if opts.dryRun then
            ("would remove", none, fs)
          else
            ("removed", none, fsRemove fs entry.path)
      | _ => ("skip (not a symlink)", some .skipped, fs)

/-- `replayHardlinkCreate`: remove the link unconditionally (the
recorded checksum is not re-verified). -/
def replayHardlinkCreate (entry : Entry) (opts : ReplayOptions) (fs : FS) :
    String × Option ReplayErrKind × FS :=
  match fsGet fs entry.path with
  | none => ("skip (not found)", some .skipped, fs)
  | some obj =>
      match obj with
      | .file _ _ =>
          if opts.dryRun then
            ("would remove", none, fs)
          else
            ("removed", none, fsRemove fs entry.path)
      | _ => ("skip (not a file)", some .skipped, fs)

/-- `replayEntry`: dispatch on the operation string; unknown strings are
the `state` error that does not abort the loop. -/
def replayEntry (entry : Entry) (opts : ReplayOptions) (fs : FS) :
    String × Option ReplayErrKind × FS :=
  if entry.op = opFileCreate then replayFileCreate entry opts fs
  else if entry.op = opFileDelete then replayFileDelete entry opts fs
  else if entry.op = opFileOverwrite then replayFileOverwrite entry opts fs
  else if entry.op = opDirCreate then replayDirCreate entry opts fs
  else if entry.op = opSymlinkCreate then replaySymlinkCreate entry opts fs
  else if entry.op = opHardlinkCreate then replayHardlinkCreate entry opts fs
  else ("unknown", some (.other ("unknown operation: " ++ entry.op)), fs)

/-- One iteration of the `ReverseReplay` loop: run `replayEntry`, emit
the `OnEntry` observation, then accumulate into the result exactly as
lines 76-99 of `replay.go` do: skips count, drift appends the path and
(without force) also a `ReplayError` and stops that entry, other errors
append a `ReplayError`, everything else counts as processed. -/
def replayStep (opts : ReplayOptions)
    (st : ReplayResult × List (Entry × String) × FS) (entry : Entry) :
    ReplayResult × List (Entry × String) × FS :=
  let result := st.1
  let trace := st.2.1
  let fs := st.2.2
  let out := replayEntry entry opts fs
  let trace := trace ++ [(entry, out.1)]
  match out.2.1 with
  | some .skipped => ({result with skipped := result.skipped + 1}, trace, out.2.2)
  | some .modified =>
      let result := {result with modifiedFiles := result.modifiedFiles ++ [entry.path]}
      if !opts.force then
        ({result with errors := result.errors ++ [⟨entry, .modified⟩]}, trace, out.2.2)
      else
        ({result with processed := result.processed + 1}, trace, out.2.2)
  | some (.other m) =>
      ({result with errors := result.errors ++ [⟨entry, .other m⟩]}, trace, out.2.2)
  | none => ({result with processed := result.processed + 1}, trace, out.2.2)

/-- `ReverseReplay`: walk the entries last-to-first. The first component
is the function's top-level `error` return, which is the literal
`return result, nil`; the trace is the sequence of `OnEntry` callback
invocations (entry, action label). -/
def ReverseReplayGo (l : Ledger) (opts : ReplayOptions) (fs : FS) :
    Option String × ReplayResult × List (Entry × String) × FS :=
  (none, l.entries.reverse.foldl (replayStep opts) ({}, [], fs))

/-- Ownership probe of `record.go` (`getOwnership`). The portable
fallback `stat_other.go` returns `(0, 0)`, the degraded-but-valid state;
host-specific ownership is outside this abstraction. -/
def getOwnership (_ : FsObj) : Nat × Nat := (0, 0)

/-- The `createBackup` method of `record.go`: ensure
`<backupDir>/<pkg>/` exists, address the backup by the original's
checksum, skip the copy when that target already exists, otherwise copy
the source file there and fsync. Returns the backup path and the next
filesystem. -/
def createBackup (backupDir : Path) (pkg : String) (fs : FS) (path : Path)
    (checksum : String) : Except String (Path × FS) :=
  let pkgBackupDir := backupDir ++ [pkg]
  match mkdirAll fs pkgBackupDir with
  | .error _ => .error "create backup directory"
  | .ok fs1 =>
      let backupPath := pkgBackupDir ++ [checksum]
      if (fsGet fs1 backupPath).isSome then
        .ok (backupPath, fs1)
      else
        match fsGet fs1 path with
        | some (.file c _) => .ok (backupPath, fsSet fs1 backupPath (.file c 0o666))
        | some _ => .error "copy"
        | none => .error "open"

/-- `PrepareOverwrite`: called before a destructive write. A missing
path is the benign `(nil, nil)` "nothing to back up" return; a symlink
yields an original with its target and no backup; a regular file is
hashed and backed up. A directory reaches the regular-file branch and
fails inside `Checksum`. File sizes and modification times are outside
this abstraction and recorded as `0`. -/
def PrepareOverwrite (backupDir : Path) (pkg : String) (fs : FS) (path : Path) :
    Except String (Option OriginalFile × FS) :=
  match fsGet fs path with
  | none => .ok (none, fs)
  | some (.symlink target mode) =>
      .ok (some { mode := mode, uid := 0, gid := 0, target := target }, fs)
  | some (.file c mode) =>
      match createBackup backupDir pkg fs path c with
      | .error _ => .error "create backup"
      | .ok (bp, fs1) =>
          .ok (some { mode := mode, uid := 0, gid := 0, checksum := c, backupPath := bp }, fs1)
  | some (.dir _) => .error "compute checksum"

/-- `RecordFileDelete`: the entry recorded for a deletion, plus the
filesystem after the backup side effects. The Go method begins with
`os.Lstat(path)` and returns that error unchanged when the path does
not exist (there is no benign branch here, unlike `PrepareOverwrite`).
The produced entry is returned so the caller can append it; the
in-memory/on-disk append itself is `recordGo` below. -/
def RecordFileDelete (backupDir : Path) (pkg : String) (fs : FS) (path : Path)
    (now : Nat) : Except String (Entry × FS) :=
  match fsGet fs path with
  | none => .error "stat file"
  | some (.symlink target mode) =>
      .ok ({ op := opFileDelete, path := path, ts := now,
             original := some { mode := mode, uid := 0, gid := 0, target := target } }, fs)
  | some (.file c mode) =>
      match createBackup backupDir pkg fs path c with
      | .error _ => .error "create backup"
      | .ok (bp, fs1) =>
          .ok ({ op := opFileDelete, path := path, ts := now,
                 original := some { mode := mode, uid := 0, gid := 0, checksum := c,
                                    backupPath := bp } }, fs1)
  | some (.dir _) => .error "compute checksum"

/-- Wire form of an `OriginalFile` as `encoding/json` emits it: every
field is plain except `target`, which carries `omitempty`. RFC 3339
instants round-trip to the same instant, so timestamps stay abstract
ticks on the wire. -/
structure OriginalJson where
  mode : Nat
  uid : Nat
  gid : Nat
  size : Int
  checksum : String
  backup_path : Path
  target : Option String
  mtime : Nat
deriving DecidableEq, Repr

/-- Wire form of an `Entry`: `op`, `path`, `ts` are plain; every other
field carries `omitempty`, so Go's zero values are absent on the wire. -/
structure EntryJson where
  op : String
  path : Path
  ts : Nat
  mode : Option Nat
  uid : Option Nat
  gid : Option Nat
  size : Option Int
  checksum : Option String
  target : Option String
  original : Option OriginalJson
deriving DecidableEq, Repr

/-- Wire form of a `Header`: `source` and `source_checksum` carry
`omitempty`. -/
structure HeaderJson where
  version : Nat
  package : String
  installed_at : Nat
  source : Option String
  source_checksum : Option String
deriving DecidableEq, Repr

/-- Marshal an original sub-record (`json.Marshal`). -/
def encodeOriginal (o : OriginalFile) : OriginalJson :=
  { mode := o.mode, uid := o.uid, gid := o.gid, size := o.size,
    checksum := o.checksum, backup_path := o.backupPath,
    target := if o.target = "" then none else some o.target,
    mtime := o.modTime }

/-- Unmarshal an original sub-record: absent fields stay Go zero
values. -/
def decodeOriginal (j : OriginalJson) : OriginalFile :=
  { mode := j.mode, uid := j.uid, gid := j.gid, size := j.size,
    checksum := j.checksum, backupPath := j.backup_path,
    target := j.target.getD "", modTime := j.mtime }

/-- Marshal one entry: `omitempty` drops zero values. -/
def encodeEntry (e : Entry) : EntryJson :=
  { op := e.op, path := e.path, ts := e.ts,
    mode := if e.mode = 0 then none else some e.mode,
    uid := if e.uid = 0 then none else some e.uid,
    gid := if e.gid = 0 then none else some e.gid,
    size := if e.size = 0 then none else some e.size,
    checksum := if e.checksum = "" then none else some e.checksum,
    target := if e.target = "" then none else some e.target,
    original := e.original.map encodeOriginal }

/-- Unmarshal one entry. -/
def decodeEntry (j : EntryJson) : Entry :=
  { op := j.op, path := j.path, ts := j.ts,
    mode := j.mode.getD 0, uid := j.uid.getD 0, gid := j.gid.getD 0,
    size := j.size.getD 0, checksum := j.checksum.getD "",
    target := j.target.getD "",
    original := j.original.map decodeOriginal }

/-- Marshal the header. -/
def encodeHeader (h : Header) : HeaderJson :=
  { version := h.version, package := h.package, installed_at := h.installedAt,
    source := if h.source = "" then none else some h.source,
    source_checksum := if h.sourceChecksum = "" then none else some h.sourceChecksum }

/-- Unmarshal the header. -/
def decodeHeader (j : HeaderJson) : Header :=
  { version := j.version, package := j.package, installedAt := j.installed_at,
    source := j.source.getD "", sourceChecksum := j.source_checksum.getD "" }

/-- The on-disk ledger file at the wire level: the header line followed
by one line per entry. Byte-level JSON text, truncation and malformed
lines live below this abstraction; each `Record` is a single write of a
full line, so a well-formed file is exactly this shape. -/
structure LedgerFile where
  header : HeaderJson
  lines : List EntryJson
deriving DecidableEq, Repr

/-- `Create(dir, pkg, source)`: write the header as the first line and
return the open in-memory handle. Directory handling and the exclusive
create are outside this model. -/
def createGo (pkg source : String) (now : Nat) : Ledger × LedgerFile :=
  let h : Header := { version := currentVersion, package := pkg,
                      installedAt := now, source := source }
  ({ header := h, entries := [] }, { header := encodeHeader h, lines := [] })

/-- `Record(entry)`: populate the timestamp if unset, append one JSON
line to the file, and append to the in-memory list. -/
def recordGo (st : Ledger × LedgerFile) (e : Entry) (now : Nat) : Ledger × LedgerFile :=
  let e' := if e.ts = 0 then { e with ts := now } else e
  ({ st.1 with entries := st.1.entries ++ [e'] },
   { st.2 with lines := st.2.lines ++ [encodeEntry e'] })

/-- A whole install's sequence of `Record` calls, each with the wall
clock at that call. -/
def recordAllGo (st : Ledger × LedgerFile) (recs : List (Entry × Nat)) :
    Ledger × LedgerFile :=
  recs.foldl (fun s en => recordGo s en.1 en.2) st

/-- `OpenPath`: parse header then entries, refusing a version newer than
the supported one. -/
def openPathGo (f : LedgerFile) : Except String Ledger :=
  let h := decodeHeader f.header
  if h.version > currentVersion then
    .error "ledger version is newer than supported version"
  else
    .ok { header := h, entries := f.lines.map decodeEntry }

/-- An install step as the executor loop sees it (`pkg.InstallStep`
abstracted to its tag; the loop under verification only reads the
tag when formatting its error). -/
structure Step where
  type : String
deriving DecidableEq, Repr

/-- The world an install acts on: the filesystem, the entries recorded
so far, and whether the ledger file is still on disk. -/
structure World where
  fs : FS
  ledgerEntries : List Entry
  ledgerFileExists : Bool
deriving DecidableEq, Repr

/-- The installer's `rollback` method: reverse replay of the
ledger-so-far with `Force: true`; the result's per-entry errors are
logged and discarded. -/
def rollbackGo (w : World) : World :=
  let out := ReverseReplayGo { entries := w.ledgerEntries } { force := true } w.fs
  { w with fs := out.2.2.2 }

/-- The error `Install` surfaces for a failing step:
`fmt.Errorf("step %d (%s): %w", idx+1, step.Type, err)`. -/
def stepErrorMsg (idx : Nat) (s : Step) (e : String) : String :=
  "step " ++ toString (idx + 1) ++ " (" ++ s.type ++ "): " ++ e

/-- The step loop of `Install` (installer.go lines 97 to 107): run each
step in order; on the first failure roll back, delete the ledger file,
and return the wrapped step error. The step executor is a parameter:
the loop's contract holds whatever `executeStep` does. -/
def installLoopGo (exec : Step → World → Except String World) :
    List Step → Nat → World → Option String × World
  | [], _, w => (none, w)
  | s :: rest, idx, w =>
      match exec s w with
      | .error e =>
          let w1 := rollbackGo w
          (some (stepErrorMsg idx s e), { w1 with ledgerFileExists := false })
      | .ok w' => installLoopGo exec rest (idx + 1) w'

/-- Running a list of steps without failure (the successful prefix
before the failing step). -/
def execSteps (exec : Step → World → Except String World) :
    List Step → World → Except String World
  | [], w => .ok w
  | s :: rest, w =>
      match exec s w with
      | .error e => .error e
      | .ok w' => execSteps exec rest w'

/-- The paths a single entry's undo may write: its own path, the
directory chain `MkdirAll` may materialise above it, and the backup file
it may delete. Everything else is untouched by `replayEntry`. -/
def entryWrites (e : Entry) : List Path :=
  e.path :: (pathAncestors e.path.dropLast ++
    (match e.original with
     | some o => [o.backupPath]
     | none => []))

/-- An entry whose undo has already happened on the given filesystem:
creation entries find their path gone, a delete entry (with its original
recorded) finds the path present again. `file_overwrite` has no such
state: its drift check against the installed checksum can never pass
once the original has been restored. -/
def alreadyUndone (e : Entry) (fs : FS) : Prop :=
  ((e.op = opFileCreate ∨ e.op = opDirCreate ∨ e.op = opSymlinkCreate ∨
      e.op = opHardlinkCreate) ∧ fsGet fs e.path = none) ∨
  (e.op = opFileDelete ∧ e.original.isSome ∧ (fsGet fs e.path).isSome)

instance (e : Entry) (fs : FS) : Decidable (alreadyUndone e fs) := by
  unfold alreadyUndone
  infer_instance

/-- The skip label an already-undone entry draws. -/
def skipLabel (e : Entry) (fs : FS) : String :=
  if (fsGet fs e.path).isSome then "skip (exists)" else "skip (not found)"

/-- Componentwise accumulation of replay results (how one loop
iteration's contribution combines with the result so far). -/
def addResult (a b : ReplayResult) : ReplayResult :=
  { processed := a.processed + b.processed, skipped := a.skipped + b.skipped,
    errors := a.errors ++ b.errors,
    modifiedFiles := a.modifiedFiles ++ b.modifiedFiles }

/-- The contribution of a list of (already reversed) entries to a replay
that starts from an empty result: the loop of `ReverseReplay` as a
function of the initial filesystem alone. -/
def replayDelta (opts : ReplayOptions) (es : List Entry) (fs : FS) :
    ReplayResult × List (Entry × String) × FS :=
  es.foldl (replayStep opts) ({}, [], fs)

theorem fsGet_fsSet (fs : FS) (q r : Path) (o : FsObj) :
    fsGet (fsSet fs q o) r = if q = r then some o else fsGet fs r := by
  induction fs with
  | nil => by_cases h : q = r <;> simp [fsSet, fsGet, h]
  | cons hd tl ih =>
      obtain ⟨a, b⟩ := hd
      by_cases h1 : a = q <;> by_cases h2 : q = r <;> by_cases h3 : a = r <;>
        simp_all [fsSet, fsGet]

theorem fsGet_fsRemove (fs : FS) (q r : Path) :
    fsGet (fsRemove fs q) r = if q = r then none else fsGet fs r := by
  induction fs with
  | nil => by_cases h : q = r <;> simp [fsRemove, fsGet, h]
  | cons hd tl ih =>
      obtain ⟨a, b⟩ := hd
      by_cases h1 : a = q <;> by_cases h2 : q = r <;> by_cases h3 : a = r <;>
        simp_all [fsRemove, fsGet]

theorem osRemoveIgnore_get_ne (fs : FS) (q r : Path) (h : q ≠ r) :
    fsGet (osRemoveIgnore fs q) r = fsGet fs r := by
  unfold osRemoveIgnore
  cases hg : fsGet fs q with
  | none => rfl
  | some o =>
      cases o with
      | file c m => simp [fsGet_fsRemove, h]
      | dir m =>
          by_cases hc : fsHasChild fs q = true <;> simp [hc, fsGet_fsRemove, h]
      | symlink t m => simp [fsGet_fsRemove, h]

theorem chmodIgnore_get_ne (fs : FS) (q r : Path) (mo : Nat) (h : q ≠ r) :
    fsGet (chmodIgnore fs q mo) r = fsGet fs r := by
  unfold chmodIgnore
  cases hg : fsGet fs q with
  | none => rfl
  | some o => cases o <;> simp [fsGet_fsSet, h]

theorem copyFile_get_ne (fs fs' : FS) (src dst r : Path)
    (hok : copyFile fs src dst = .ok fs') (h : dst ≠ r) :
    fsGet fs' r = fsGet fs r := by
  unfold copyFile at hok
  cases hs : fsGet fs src with
  | none => rw [hs] at hok; exact absurd hok (by simp)
  | some o =>
      rw [hs] at hok
      cases o with
      | file c m =>
          cases hd : fsGet fs dst with
          | none =>
              rw [hd] at hok
              by_cases he : dst.dropLast.isEmpty
              · simp only [he, if_pos] at hok
                cases hok
                simp [fsGet_fsSet, h]
              · simp only [he, if_neg, Bool.false_eq_true, not_false_eq_true] at hok
                cases hp : fsGet fs dst.dropLast with
                | none => rw [hp] at hok; exact absurd hok (by simp)
                | some po =>
                    rw [hp] at hok
                    cases po with
                    | dir m2 => cases hok; simp [fsGet_fsSet, h]
                    | file c2 m2 => exact absurd hok (by simp)
                    | symlink t2 m2 => exact absurd hok (by simp)
          | some od =>
              rw [hd] at hok
              cases od with
              | file c2 m2 => cases hok; simp [fsGet_fsSet, h]
              | dir m2 => exact absurd hok (by simp)
              | symlink t2 m2 => exact absurd hok (by simp)
      | dir m => exact absurd hok (by simp)
      | symlink t m => exact absurd hok (by simp)

theorem mkdirChain_get_notMem (qs : List Path) (fs : FS) (r : Path) (h : r ∉ qs) :
    fsGet (mkdirChain qs fs) r = fsGet fs r := by
  induction qs generalizing fs with
  | nil => rfl
  | cons q qs ih =>
      have hqr : q ≠ r := fun he => h (he ▸ List.mem_cons_self q qs)
      have hrest : r ∉ qs := fun hm => h (List.mem_cons_of_mem q hm)
      show fsGet (mkdirChain qs _) r = fsGet fs r
      rw [ih _ hrest]
      by_cases hs : (fsGet fs q).isSome <;> simp [hs, fsGet_fsSet, hqr]

theorem mkdirChain_preserve (qs : List Path) (fs : FS) (r : Path) (o : FsObj)
    (h : fsGet fs r = some o) : fsGet (mkdirChain qs fs) r = some o := by
  induction qs generalizing fs with
  | nil => exact h
  | cons q qs ih =>
      show fsGet (mkdirChain qs _) r = some o
      apply ih
      by_cases hs : (fsGet fs q).isSome
      · simpa [hs] using h
      · by_cases hqr : q = r
        · subst hqr; rw [h] at hs; simp at hs
        · simpa [hs, fsGet_fsSet, hqr] using h

theorem mkdirChain_id (qs : List Path) (fs : FS)
    (hall : ∀ q ∈ qs, (fsGet fs q).isSome) : mkdirChain qs fs = fs := by
  induction qs with
  | nil => rfl
  | cons q qs ih =>
      have h1 : (fsGet fs q).isSome = true := hall q (List.mem_cons_self q qs)
      have h2 : mkdirChain (q :: qs) fs = mkdirChain qs fs := by
        simp [mkdirChain, h1]
      rw [h2]
      exact ih fun q' hq' => hall q' (List.mem_cons_of_mem q hq')

theorem mkdirChain_creates (qs : List Path) (fs : FS)
    (hall : ∀ q ∈ qs, fsGet fs q = none ∨ ∃ m, fsGet fs q = some (.dir m)) :
    ∀ q ∈ qs, ∃ m, fsGet (mkdirChain qs fs) q = some (.dir m) := by
  induction qs generalizing fs with
  | nil => intro q hq; exact absurd hq (List.not_mem_nil q)
  | cons q0 qs ih =>
      intro q hq
      have step := fun acc : FS =>
        if (fsGet acc q0).isSome then acc else fsSet acc q0 (.dir 0o755)
      have h0 : ∃ m, fsGet (if (fsGet fs q0).isSome then fs
          else fsSet fs q0 (.dir 0o755)) q0 = some (.dir m) := by
        rcases hall q0 (List.mem_cons_self q0 qs) with hn | ⟨m, hm⟩
        · refine ⟨0o755, ?_⟩
          simp [hn, fsGet_fsSet]
        · refine ⟨m, ?_⟩
          simp [hm, Option.isSome]
      rcases List.mem_cons.mp hq with rfl | hq'
      · obtain ⟨m, hm⟩ := h0
        exact ⟨m, mkdirChain_preserve qs _ q (.dir m) hm⟩
      · apply ih
        · intro q' hq''
          by_cases he : q' = q0
          · subst he
            obtain ⟨m, hm⟩ := h0
            exact Or.inr ⟨m, hm⟩
          · have hne : ¬ q0 = q' := fun h => he h.symm
            have huntouched : fsGet (if (fsGet fs q0).isSome then fs
                else fsSet fs q0 (.dir 0o755)) q' = fsGet fs q' := by
              by_cases hs : (fsGet fs q0).isSome <;> simp [hs, fsGet_fsSet, hne]
            rw [huntouched]
            exact hall q' (List.mem_cons_of_mem q0 hq'')
        · exact hq'

theorem mkdirAll_ok_iff (fs : FS) (p : Path) :
    (∃ fs', mkdirAll fs p = .ok fs') ↔
      ∀ q ∈ pathAncestors p, fsGet fs q = none ∨ ∃ m, fsGet fs q = some (.dir m) := by
  unfold mkdirAll
  by_cases hg : (pathAncestors p).all fun q =>
      match fsGet fs q with
      | some (.dir _) => true
      | none => true
      | some _ => false
  · simp only [hg, if_pos]
    constructor
    · intro _ q hq
      have := List.all_eq_true.mp hg q hq
      cases hgq : fsGet fs q with
      | none => exact Or.inl rfl
      | some o =>
          cases o with
          | dir m => exact Or.inr ⟨m, rfl⟩
          | file c m => rw [hgq] at this; simp at this
          | symlink t m => rw [hgq] at this; simp at this
    · intro _; exact ⟨_, rfl⟩
  · simp only [hg, if_neg, Bool.false_eq_true, not_false_eq_true]
    constructor
    · intro ⟨fs', hfs'⟩; exact absurd hfs' (by simp)
    · intro hall
      exfalso
      apply hg
      apply List.all_eq_true.mpr
      intro q hq
      rcases hall q hq with hn | ⟨m, hm⟩
      · simp [hn]
      · simp [hm]

theorem mkdirAll_ok_shape (fs fs' : FS) (p : Path)
    (h : mkdirAll fs p = .ok fs') : fs' = mkdirChain (pathAncestors p) fs := by
  unfold mkdirAll at h
  by_cases hg : (pathAncestors p).all fun q =>
      match fsGet fs q with
      | some (.dir _) => true
      | none => true
      | some _ => false
  · rw [if_pos hg] at h
    exact (Except.ok.injEq _ _ |>.mp h).symm
  · rw [if_neg hg] at h
    exact absurd h (by simp)

theorem mkdirAll_dirs (fs fs' : FS) (p : Path) (h : mkdirAll fs p = .ok fs') :
    ∀ q ∈ pathAncestors p, ∃ m, fsGet fs' q = some (.dir m) := by
  have hall := (mkdirAll_ok_iff fs p).mp ⟨fs', h⟩
  rw [mkdirAll_ok_shape fs fs' p h]
  exact mkdirChain_creates _ fs hall

theorem mkdirAll_preserve (fs fs' : FS) (p r : Path) (o : FsObj)
    (h : mkdirAll fs p = .ok fs') (hr : fsGet fs r = some o) :
    fsGet fs' r = some o := by
  rw [mkdirAll_ok_shape fs fs' p h]
  exact mkdirChain_preserve _ fs r o hr

theorem mkdirAll_get_notMem (fs fs' : FS) (p r : Path)
    (h : mkdirAll fs p = .ok fs') (hr : r ∉ pathAncestors p) :
    fsGet fs' r = fsGet fs r := by
  rw [mkdirAll_ok_shape fs fs' p h]
  exact mkdirChain_get_notMem _ fs r hr

theorem mkdirAll_idem (fs : FS) (p : Path)
    (hall : ∀ q ∈ pathAncestors p, ∃ m, fsGet fs q = some (.dir m)) :
    mkdirAll fs p = .ok fs := by
  have hok : ∃ fs', mkdirAll fs p = .ok fs' :=
    (mkdirAll_ok_iff fs p).mpr fun q hq => Or.inr (hall q hq)
  obtain ⟨fs', hfs'⟩ := hok
  have := mkdirAll_ok_shape fs fs' p hfs'
  rw [hfs', this, mkdirChain_id]
  intro q hq
  obtain ⟨m, hm⟩ := hall q hq
  simp [hm]

theorem pathAncestors_length (p q : Path) (h : q ∈ pathAncestors p) :
    q.length ≤ p.length ∧ 0 < q.length := by
  induction p generalizing q with
  | nil => exact absurd h (List.not_mem_nil q)
  | cons x rest ih =>
      rcases List.mem_cons.mp h with rfl | h'
      · simp
      · obtain ⟨q', hq', rfl⟩ := List.mem_map.mp h'
        have := ih q' hq'
        simp only [List.length_cons]
        omega

theorem self_notMem_ancestors_dropLast (p : Path) :
    p ∉ pathAncestors p.dropLast := by
  intro h
  have hl := (pathAncestors_length p.dropLast p h).1
  cases p with
  | nil => exact absurd h (List.not_mem_nil _)
  | cons x rest =>
      have h2 : (x :: rest : Path).dropLast.length = rest.length := by
        simp [List.length_dropLast]
      have h3 : (x :: rest : Path).length = rest.length + 1 := by simp
      omega

theorem replayFileCreate_get_ne (e : Entry) (opts : ReplayOptions) (fs : FS) (q : Path)
    (hq : q ≠ e.path) :
    fsGet (replayFileCreate e opts fs).2.2 q = fsGet fs q := by
  cases hg : fsGet fs e.path with
  | none => simp [replayFileCreate, hg]
  | some obj =>
      cases obj with
      | file c m =>
          simp only [replayFileCreate, hg]
          split_ifs with h1 h2
          · rfl
          · rfl
          · simp [fsGet_fsRemove, Ne.symm hq]
      | dir m => simp [replayFileCreate, hg]
      | symlink t m => simp [replayFileCreate, hg]

theorem replayDirCreate_get_ne (e : Entry) (opts : ReplayOptions) (fs : FS) (q : Path)
    (hq : q ≠ e.path) :
    fsGet (replayDirCreate e opts fs).2.2 q = fsGet fs q := by
  cases hg : fsGet fs e.path with
  | none => simp [replayDirCreate, hg]
  | some obj =>
      cases obj with
      | dir m =>
          simp only [replayDirCreate, hg]
          split_ifs with h2 h3
          · rfl
          · rfl
          · simp [fsGet_fsRemove, Ne.symm hq]
      | file c m => simp [replayDirCreate, hg]
      | symlink t m => simp [replayDirCreate, hg]

theorem replaySymlinkCreate_get_ne (e : Entry) (opts : ReplayOptions) (fs : FS) (q : Path)
    (hq : q ≠ e.path) :
    fsGet (replaySymlinkCreate e opts fs).2.2 q = fsGet fs q := by
  cases hg : fsGet fs e.path with
  | none => simp [replaySymlinkCreate, hg]
  | some obj =>
      cases obj with
      | symlink t m =>
          simp only [replaySymlinkCreate, hg]
          split_ifs with h1 h2
          · rfl
          · rfl
          · simp [fsGet_fsRemove, Ne.symm hq]
      | file c m => simp [replaySymlinkCreate, hg]
      | dir m => simp [replaySymlinkCreate, hg]

theorem replayHardlinkCreate_get_ne (e : Entry) (opts : ReplayOptions) (fs : FS) (q : Path)
    (hq : q ≠ e.path) :
    fsGet (replayHardlinkCreate e opts fs).2.2 q = fsGet fs q := by
  cases hg : fsGet fs e.path with
  | none => simp [replayHardlinkCreate, hg]
  | some obj =>
      cases obj with
      | file c m =>
          simp only [replayHardlinkCreate, hg]
          split_ifs with h2
          · rfl
          · simp [fsGet_fsRemove, Ne.symm hq]
      | dir m => simp [replayHardlinkCreate, hg]
      | symlink t m => simp [replayHardlinkCreate, hg]

theorem replayFileDelete_get_ne (e : Entry) (opts : ReplayOptions) (fs : FS) (q : Path)
    (hq : q ≠ e.path) (hq2 : q ∉ pathAncestors e.path.dropLast)
    (hq3 : ∀ o, e.original = some o → q ≠ o.backupPath) :
    fsGet (replayFileDelete e opts fs).2.2 q = fsGet fs q := by
  cases ho : e.original with
  | none => simp [replayFileDelete, ho]
  | some o =>
      have hqb := hq3 o ho
      by_cases hex : (fsGet fs e.path).isSome
      · simp [replayFileDelete, ho, hex]
      · by_cases hbp : o.backupPath = []
        · simp [replayFileDelete, ho, hex, hbp]
        · by_cases hdr : opts.dryRun
          · simp [replayFileDelete, ho, hex, hbp, hdr]
          · cases hmk : mkdirAll fs e.path.dropLast with
            | error msg => simp [replayFileDelete, ho, hex, hbp, hdr, hmk]
            | ok fs1 =>
                have hfs1 : fsGet fs1 q = fsGet fs q :=
                  mkdirAll_get_notMem fs fs1 _ q hmk hq2
                cases hcp : copyFile fs1 o.backupPath e.path with
                | error msg =>
                    simp [replayFileDelete, ho, hex, hbp, hdr, hmk, hcp, hfs1]
                | ok fs2 =>
                    have hfs2 : fsGet fs2 q = fsGet fs1 q :=
                      copyFile_get_ne fs1 fs2 _ _ q hcp (fun h => hq h.symm)
                    have hch : fsGet (chmodIgnore fs2 e.path o.mode) q = fsGet fs2 q :=
                      chmodIgnore_get_ne fs2 e.path q o.mode (fun h => hq h.symm)
                    by_cases hkb : opts.keepBackups
                    · simp [replayFileDelete, ho, hex, hbp, hdr, hmk, hcp, hkb,
                        hch, hfs2, hfs1]
                    · have hrb : fsGet (osRemoveIgnore (chmodIgnore fs2 e.path o.mode)
                          o.backupPath) q = fsGet (chmodIgnore fs2 e.path o.mode) q :=
                        osRemoveIgnore_get_ne _ _ q (fun h => hqb h.symm)
                      simp [replayFileDelete, ho, hex, hbp, hdr, hmk, hcp, hkb,
                        hrb, hch, hfs2, hfs1]

theorem replayFileOverwrite_get_ne (e : Entry) (opts : ReplayOptions) (fs : FS) (q : Path)
    (hq : q ≠ e.path) (hq2 : q ∉ pathAncestors e.path.dropLast)
    (hq3 : ∀ o, e.original = some o → q ≠ o.backupPath) :
    fsGet (replayFileOverwrite e opts fs).2.2 q = fsGet fs q := by
  cases ho : e.original with
  | none => simp [replayFileOverwrite, ho]
  | some o =>
      have hqb := hq3 o ho
      by_cases hbp : o.backupPath = []
      · simp [replayFileOverwrite, ho, hbp]
      · have hrest : ∀ fsx : FS, fsGet fsx q = fsGet fs q →
            fsGet (if opts.dryRun then ("would restore", none, fsx)
              else
                let fs0 := osRemoveIgnore fsx e.path
                match mkdirAll fs0 e.path.dropLast with
                | .error _ => ("error", some (ReplayErrKind.other "create parent directory"), fs0)
                | .ok fs1 =>
                    match copyFile fs1 o.backupPath e.path with
                    | .error _ => ("error", some (ReplayErrKind.other "restore from backup"), fs1)
                    | .ok fs2 =>
                        let fs3 := chmodIgnore fs2 e.path o.mode
                        let fs4 := if !opts.keepBackups then osRemoveIgnore fs3 o.backupPath else fs3
                        ("restored", none, fs4)).2.2 q = fsGet fs q := by
          intro fsx hfsx
          by_cases hdr : opts.dryRun
          · simp [hdr, hfsx]
          · have hfs0 : fsGet (osRemoveIgnore fsx e.path) q = fsGet fs q := by
              rw [osRemoveIgnore_get_ne fsx e.path q (fun h => hq h.symm)]
              exact hfsx
            cases hmk : mkdirAll (osRemoveIgnore fsx e.path) e.path.dropLast with
            | error msg => simp [hdr, hmk, hfs0]
            | ok fs1 =>
                have hfs1 : fsGet fs1 q = fsGet fs q := by
                  rw [mkdirAll_get_notMem _ fs1 _ q hmk hq2]
                  exact hfs0
                cases hcp : copyFile fs1 o.backupPath e.path with
                | error msg => simp [hdr, hmk, hcp, hfs1]
                | ok fs2 =>
                    have hfs2 : fsGet fs2 q = fsGet fs q := by
                      rw [copyFile_get_ne fs1 fs2 _ _ q hcp (fun h => hq h.symm)]
                      exact hfs1
                    have hch : fsGet (chmodIgnore fs2 e.path o.mode) q = fsGet fs q := by
                      rw [chmodIgnore_get_ne fs2 e.path q o.mode (fun h => hq h.symm)]
                      exact hfs2
                    by_cases hkb : opts.keepBackups
                    · simp [hdr, hmk, hcp, hkb, hch]
                    · have hrb : fsGet (osRemoveIgnore (chmodIgnore fs2 e.path o.mode)
                          o.backupPath) q = fsGet fs q := by
                        rw [osRemoveIgnore_get_ne _ _ q (fun h => hqb h.symm)]
                        exact hch
                      simp [hdr, hmk, hcp, hkb, hrb]
        by_cases hcs : e.checksum ≠ ""
        · cases hca : checksumAt fs e.path with
          | absent =>
              have := hrest fs rfl
              simp only [replayFileOverwrite, ho, hbp, hcs, hca] at this ⊢
              simpa using this
          | readErr => simp [replayFileOverwrite, ho, hbp, hcs, hca]
          | got c =>
              by_cases hcc : c ≠ e.checksum
              · simp [replayFileOverwrite, ho, hbp, hcs, hca, hcc]
              · have := hrest fs rfl
                simp only [replayFileOverwrite, ho, hbp, hcs, hca, hcc] at this ⊢
                simpa using this
        · have := hrest fs rfl
          simp only [replayFileOverwrite, ho, hbp, hcs] at this ⊢
          simpa using this

theorem replayEntry_get_ne (e : Entry) (opts : ReplayOptions) (fs : FS) (q : Path)
    (h : q ∉ entryWrites e) :
    fsGet (replayEntry e opts fs).2.2 q = fsGet fs q := by
  have hq : q ≠ e.path := by
    intro he
    apply h
    simp only [entryWrites, he]
    exact List.mem_cons_self _ _
  have hq2 : q ∉ pathAncestors e.path.dropLast := by
    intro hm
    apply h
    simp only [entryWrites]
    exact List.mem_cons_of_mem _ (List.mem_append_left _ hm)
  have hq3 : ∀ o, e.original = some o → q ≠ o.backupPath := by
    intro o ho he
    apply h
    simp only [entryWrites, ho]
    subst he
    exact List.mem_cons_of_mem _ (List.mem_append_right _ (List.mem_singleton_self _))
  by_cases h1 : e.op = opFileCreate
  · simp only [replayEntry, h1, if_pos]
    exact replayFileCreate_get_ne e opts fs q hq
  by_cases h2 : e.op = opFileDelete
  · simp only [replayEntry, h1, h2, if_pos, if_neg, if_false]
    exact replayFileDelete_get_ne e opts fs q hq hq2 hq3
  by_cases h3 : e.op = opFileOverwrite
  · simp only [replayEntry, h1, h2, h3, if_pos, if_neg, if_false]
    exact replayFileOverwrite_get_ne e opts fs q hq hq2 hq3
  by_cases h4 : e.op = opDirCreate
  · simp only [replayEntry, h1, h2, h3, h4, if_pos, if_neg, if_false]
    exact replayDirCreate_get_ne e opts fs q hq
  by_cases h5 : e.op = opSymlinkCreate
  · simp only [replayEntry, h1, h2, h3, h4, h5, if_pos, if_neg, if_false]
    exact replaySymlinkCreate_get_ne e opts fs q hq
  by_cases h6 : e.op = opHardlinkCreate
  · simp only [replayEntry, h1, h2, h3, h4, h5, h6, if_pos, if_neg, if_false]
    exact replayHardlinkCreate_get_ne e opts fs q hq
  · simp [replayEntry, h1, h2, h3, h4, h5, h6]

theorem addResult_empty (r : ReplayResult) : addResult r {} = r := by
  cases r
  simp [addResult]

theorem addResult_assoc (a b c : ReplayResult) :
    addResult (addResult a b) c = addResult a (addResult b c) := by
  simp [addResult, Nat.add_assoc, List.append_assoc]

theorem replayStep_shift (opts : ReplayOptions) (r : ReplayResult)
    (tr : List (Entry × String)) (fs : FS) (e : Entry) :
    replayStep opts (r, tr, fs) e =
      (addResult r (replayStep opts ({}, [], fs) e).1,
       tr ++ (replayStep opts ({}, [], fs) e).2.1,
       (replayStep opts ({}, [], fs) e).2.2) := by
  unfold replayStep
  rcases hre : replayEntry e opts fs with ⟨a, oe, fs'⟩
  cases oe with
  | none => simp [hre, addResult]
  | some k =>
      cases k with
      | skipped => simp [hre, addResult]
      | modified => by_cases hf : opts.force <;> simp [hre, hf, addResult]
      | other m => simp [hre, addResult]

theorem foldl_replayStep_shift (opts : ReplayOptions) (es : List Entry) :
    ∀ (r : ReplayResult) (tr : List (Entry × String)) (fs : FS),
    es.foldl (replayStep opts) (r, tr, fs) =
      (addResult r (replayDelta opts es fs).1,
       tr ++ (replayDelta opts es fs).2.1,
       (replayDelta opts es fs).2.2) := by
  induction es with
  | nil => intro r tr fs; simp [replayDelta, addResult_empty]
  | cons e es ih =>
      intro r tr fs
      simp only [replayDelta, List.foldl_cons]
      rw [replayStep_shift]
      rcases hstep : replayStep opts ({}, [], fs) e with ⟨d1, rest⟩
      rcases rest with ⟨t1, fs1⟩
      simp only [hstep]
      rw [ih (addResult r d1) (tr ++ t1) fs1]
      have h2 := ih d1 t1 fs1
      simp only [replayDelta] at h2 ⊢
      rw [h2]
      simp [addResult_assoc, List.append_assoc]

theorem replayDelta_cons (opts : ReplayOptions) (e : Entry) (es : List Entry) (fs : FS) :
    replayDelta opts (e :: es) fs =
      (addResult (replayStep opts ({}, [], fs) e).1
         (replayDelta opts es (replayStep opts ({}, [], fs) e).2.2).1,
       (replayStep opts ({}, [], fs) e).2.1 ++
         (replayDelta opts es (replayStep opts ({}, [], fs) e).2.2).2.1,
       (replayDelta opts es (replayStep opts ({}, [], fs) e).2.2).2.2) := by
  simp only [replayDelta, List.foldl_cons]
  rcases hstep : replayStep opts ({}, [], fs) e with ⟨d1, rest⟩
  rcases rest with ⟨t1, fs1⟩
  simp only [hstep]
  exact foldl_replayStep_shift opts es d1 t1 fs1

theorem replayDelta_append (opts : ReplayOptions) (es1 es2 : List Entry) (fs : FS) :
    replayDelta opts (es1 ++ es2) fs =
      (addResult (replayDelta opts es1 fs).1
         (replayDelta opts es2 (replayDelta opts es1 fs).2.2).1,
       (replayDelta opts es1 fs).2.1 ++
         (replayDelta opts es2 (replayDelta opts es1 fs).2.2).2.1,
       (replayDelta opts es2 (replayDelta opts es1 fs).2.2).2.2) := by
  simp only [replayDelta, List.foldl_append]
  rcases h1 : es1.foldl (replayStep opts) ({}, [], fs) with ⟨d1, rest⟩
  rcases rest with ⟨t1, fs1⟩
  simp only [h1]
  exact foldl_replayStep_shift opts es2 d1 t1 fs1

theorem replayStep_count (opts : ReplayOptions) (fs : FS) (e : Entry) :
    (replayStep opts ({}, [], fs) e).1.processed +
      (replayStep opts ({}, [], fs) e).1.skipped +
      (replayStep opts ({}, [], fs) e).1.errors.length = 1 := by
  unfold replayStep
  rcases hre : replayEntry e opts fs with ⟨a, oe, fs'⟩
  cases oe with
  | none => simp [hre]
  | some k =>
      cases k with
      | skipped => simp [hre]
      | modified => by_cases hf : opts.force <;> simp [hre, hf]
      | other m => simp [hre]

theorem replayDelta_count (opts : ReplayOptions) (es : List Entry) :
    ∀ fs : FS,
    (replayDelta opts es fs).1.processed + (replayDelta opts es fs).1.skipped +
      (replayDelta opts es fs).1.errors.length = es.length := by
  induction es with
  | nil => intro fs; simp [replayDelta]
  | cons e es ih =>
      intro fs
      rw [replayDelta_cons]
      have h1 := replayStep_count opts fs e
      have h2 := ih (replayStep opts ({}, [], fs) e).2.2
      simp only [addResult, List.length_append, List.length_cons]
      omega

theorem replayEntry_unknown (e : Entry) (opts : ReplayOptions) (fs : FS)
    (h1 : e.op ≠ opFileCreate) (h2 : e.op ≠ opFileDelete) (h3 : e.op ≠ opFileOverwrite)
    (h4 : e.op ≠ opDirCreate) (h5 : e.op ≠ opSymlinkCreate) (h6 : e.op ≠ opHardlinkCreate) :
    replayEntry e opts fs =
      ("unknown", some (.other ("unknown operation: " ++ e.op)), fs) := by
  simp [replayEntry, h1, h2, h3, h4, h5, h6]

theorem replayDelta_unknown_mem (opts : ReplayOptions) (es : List Entry) (fs : FS)
    (e : Entry) (he : e ∈ es)
    (h1 : e.op ≠ opFileCreate) (h2 : e.op ≠ opFileDelete) (h3 : e.op ≠ opFileOverwrite)
    (h4 : e.op ≠ opDirCreate) (h5 : e.op ≠ opSymlinkCreate) (h6 : e.op ≠ opHardlinkCreate) :
    (⟨e, .other ("unknown operation: " ++ e.op)⟩ : ReplayError) ∈
      (replayDelta opts es fs).1.errors := by
  obtain ⟨l1, l2, rfl⟩ := List.append_of_mem he
  rw [replayDelta_append]
  simp only [addResult]
  apply List.mem_append.mpr
  right
  rw [replayDelta_cons]
  simp only [addResult]
  apply List.mem_append.mpr
  left
  have hstep : (replayStep opts ({}, [], (replayDelta opts l1 fs).2.2) e).1.errors
      = [⟨e, .other ("unknown operation: " ++ e.op)⟩] := by
    simp only [replayStep]
    rw [replayEntry_unknown e opts _ h1 h2 h3 h4 h5 h6]
    simp
  rw [hstep]
  exact List.mem_singleton_self _

theorem replayEntry_alreadyUndone (e : Entry) (opts : ReplayOptions) (fs : FS)
    (h : alreadyUndone e fs) :
    replayEntry e opts fs = (skipLabel e fs, some .skipped, fs) := by
  rcases h with ⟨hop, hget⟩ | ⟨hop, hos, hex⟩
  · have hlabel : skipLabel e fs = "skip (not found)" := by simp [skipLabel, hget]
    rcases hop with h1 | h1 | h1 | h1 <;>
      simp [replayEntry, h1, opFileCreate, opFileDelete, opFileOverwrite, opDirCreate,
        opSymlinkCreate, opHardlinkCreate, replayFileCreate, replayDirCreate,
        replaySymlinkCreate, replayHardlinkCreate, hget, hlabel]
  · obtain ⟨o, ho⟩ := Option.isSome_iff_exists.mp hos
    have hlabel : skipLabel e fs = "skip (exists)" := by simp [skipLabel, hex]
    simp [replayEntry, hop, opFileCreate, opFileDelete, replayFileDelete, ho, hex, hlabel]

theorem replayDelta_allUndone (opts : ReplayOptions) (es : List Entry) (fs : FS)
    (h : ∀ e ∈ es, alreadyUndone e fs) :
    replayDelta opts es fs =
      ({ skipped := es.length }, es.map (fun e => (e, skipLabel e fs)), fs) := by
  induction es with
  | nil => rfl
  | cons e es ih =>
      rw [replayDelta_cons]
      have hstep : replayStep opts ({}, [], fs) e =
          ({ skipped := 1 }, [(e, skipLabel e fs)], fs) := by
        simp only [replayStep]
        rw [replayEntry_alreadyUndone e opts fs (h e (List.mem_cons_self e es))]
        simp
      rw [hstep]
      simp only
      rw [ih fun e' he' => h e' (List.mem_cons_of_mem e he')]
      simp [addResult, Nat.add_comm]

theorem replayEntry_create_drift (e : Entry) (opts : ReplayOptions) (fs : FS)
    (hop : e.op = opFileCreate) (c : String) (m : Nat)
    (hget : fsGet fs e.path = some (.file c m)) (hcs : e.checksum ≠ "")
    (hne : c ≠ e.checksum) :
    replayEntry e opts fs = ("modified", some .modified, fs) := by
  simp [replayEntry, hop, replayFileCreate, hget, hcs, hne]

theorem replayEntry_overwrite_drift (e : Entry) (opts : ReplayOptions) (fs : FS)
    (hop : e.op = opFileOverwrite) (o : OriginalFile) (ho : e.original = some o)
    (hbp : o.backupPath ≠ []) (c : String) (m : Nat)
    (hget : fsGet fs e.path = some (.file c m)) (hcs : e.checksum ≠ "")
    (hne : c ≠ e.checksum) :
    replayEntry e opts fs = ("modified", some .modified, fs) := by
  rw [replayEntry, if_neg (by rw [hop]; decide), if_neg (by rw [hop]; decide),
    if_pos hop]
  unfold replayFileOverwrite
  rw [ho]
  simp [hbp, checksumAt, hget, hcs, hne]

theorem replayStep_fs (opts : ReplayOptions) (r : ReplayResult)
    (tr : List (Entry × String)) (fs : FS) (e : Entry) :
    (replayStep opts (r, tr, fs) e).2.2 = (replayEntry e opts fs).2.2 := by
  simp only [replayStep]
  rcases hre : replayEntry e opts fs with ⟨a, oe, fs'⟩
  cases oe with
  | none => simp [hre]
  | some k =>
      cases k with
      | skipped => simp [hre]
      | modified => by_cases hf : opts.force <;> simp [hre, hf]
      | other m => simp [hre]

theorem replayDelta_get_ne (opts : ReplayOptions) (es : List Entry) :
    ∀ (fs : FS) (q : Path), (∀ e' ∈ es, q ∉ entryWrites e') →
    fsGet (replayDelta opts es fs).2.2 q = fsGet fs q := by
  induction es with
  | nil => intro fs q _; rfl
  | cons e es ih =>
      intro fs q h
      rw [replayDelta_cons]
      simp only
      rw [ih _ q fun e' he' => h e' (List.mem_cons_of_mem e he'),
        replayStep_fs, replayEntry_get_ne e opts fs q (h e (List.mem_cons_self e es))]

/-- C1: the claim says that for a drift-sentinel entry whose on-disk
state has drifted, reverse replay with `force=true` still performs the
undo. The code does not: `replayFileCreate` returns at the drift check
before ever consulting `Force`, so the drifted file survives; the loop
merely counts the entry as processed. This theorem evaluates the replayer
at the failing input: a `file_create` entry recorded with checksum `c1`
whose file now hashes to `c2`, replayed with `force=true`; the final
filesystem is identical to the initial one (the file is still there),
while `modified_files` lists the path and `errors` is empty. -/
theorem force_true_does_not_delete_drifted_file :
    let e : Entry :=
      { op := opFileCreate, path := ["tmp", "t", "a", "b", "rg"], checksum := "c1" }
    let fs0 : FS := [(["tmp"], .dir 0o755), (["tmp", "t"], .dir 0o755),
      (["tmp", "t", "a"], .dir 0o755), (["tmp", "t", "a", "b"], .dir 0o755),
      (["tmp", "t", "a", "b", "rg"], .file "c2" 0o755)]
    ReverseReplayGo { entries := [e] } { force := true } fs0 =
      (none,
       { processed := 1, skipped := 0, errors := [],
         modifiedFiles := [["tmp", "t", "a", "b", "rg"]] },
       [(e, "modified")], fs0) := by
  decide

/-- C2 counterexample: the claim says a second reverse replay after a
first complete replay (keep_backups=false, force=false) skips every
entry, including every `file_overwrite` entry, with a "not found" or
"exists" label and an empty errors list. It is false: after the first
replay restores the original over a `file_overwrite` path, the second
replay compares the restored content against the *installed* checksum,
flags the path as modified, and records a `ReplayError`. Here the first
replay of a one-entry ledger completes cleanly, yet the second yields
a non-empty errors list and the label "modified". -/
theorem second_replay_flags_restored_overwrite :
    let e : Entry :=
      { op := opFileOverwrite, path := ["etc", "config"], checksum := "new",
        original := some { mode := 0o600, checksum := "old",
                           backupPath := ["home", "bk", "old"] } }
    let fs0 : FS := [(["etc"], .dir 0o755), (["home"], .dir 0o755),
      (["home", "bk"], .dir 0o755), (["etc", "config"], .file "new" 0o644),
      (["home", "bk", "old"], .file "old" 0o644)]
    let first := ReverseReplayGo { entries := [e] } {} fs0
    let second := ReverseReplayGo { entries := [e] } {} first.2.2.2
    first.2.1 = { processed := 1 } ∧
    second.2.1.errors = [⟨e, .modified⟩] ∧
    second.2.1.modifiedFiles = [["etc", "config"]] ∧
    second.2.2.1 = [(e, "modified")] ∧
    second.2.2.2 = first.2.2.2 := by
  decide

/-- C2 as amended: a second reverse replay performs no destructive
change and skips every entry with a "not found" / "exists" label with
empty errors, for every ledger all of whose entries are in the
already-undone state — creation entries' paths absent, delete entries'
paths present again. `file_overwrite` entries are necessarily excluded:
they have no already-undone state, because the restored original can no
longer hash to the installed checksum (see the counterexample). -/
theorem second_replay_skips_already_undone (l : Ledger) (opts : ReplayOptions)
    (fs : FS) (h : ∀ e ∈ l.entries, alreadyUndone e fs) :
    ReverseReplayGo l opts fs =
      (none, { skipped := l.entries.length },
       l.entries.reverse.map (fun e => (e, skipLabel e fs)), fs) ∧
    ∀ p ∈ (ReverseReplayGo l opts fs).2.2.1,
      p.2 = "skip (not found)" ∨ p.2 = "skip (exists)" := by
  have hall : ∀ e ∈ l.entries.reverse, alreadyUndone e fs := fun e he =>
    h e (List.mem_reverse.mp he)
  have hdelta := replayDelta_allUndone opts l.entries.reverse fs hall
  have hmain : ReverseReplayGo l opts fs =
      (none, { skipped := l.entries.length },
       l.entries.reverse.map (fun e => (e, skipLabel e fs)), fs) := by
    show (none, replayDelta opts l.entries.reverse fs) = _
    rw [hdelta]
    simp
  refine ⟨hmain, ?_⟩
  intro p hp
  rw [hmain] at hp
  simp only at hp
  obtain ⟨e, _, rfl⟩ := List.mem_map.mp hp
  unfold skipLabel
  by_cases hex : (fsGet fs e.path).isSome <;> simp [hex]

/-- C2 amended witness: a ledger whose three entries are all in the
already-undone state is fully skipped by a second replay. -/
theorem second_replay_skips_already_undone_witness :
    (∀ e ∈ ({ entries := [
        { op := opFileCreate, path := ["a", "f"], checksum := "c" },
        { op := opFileDelete, path := ["a", "g"],
          original := some { mode := 0o644, checksum := "o",
                             backupPath := ["b", "o"] } },
        { op := opDirCreate, path := ["a", "d"] }] } : Ledger).entries,
      alreadyUndone e [(["a"], FsObj.dir 0o755), (["a", "g"], FsObj.file "o" 0o644)]) ∧
    ReverseReplayGo
        { entries := [
          { op := opFileCreate, path := ["a", "f"], checksum := "c" },
          { op := opFileDelete, path := ["a", "g"],
            original := some { mode := 0o644, checksum := "o",
                               backupPath := ["b", "o"] } },
          { op := opDirCreate, path := ["a", "d"] }] } {}
        [(["a"], FsObj.dir 0o755), (["a", "g"], FsObj.file "o" 0o644)] =
      (none, { skipped := 3 },
       [({ op := opDirCreate, path := ["a", "d"] }, "skip (not found)"),
        ({ op := opFileDelete, path := ["a", "g"],
           original := some { mode := 0o644, checksum := "o",
                              backupPath := ["b", "o"] } }, "skip (exists)"),
        ({ op := opFileCreate, path := ["a", "f"], checksum := "c" },
         "skip (not found)")],
       [(["a"], FsObj.dir 0o755), (["a", "g"], FsObj.file "o" 0o644)]) := by
  constructor
  · decide
  · have h := second_replay_skips_already_undone
      { entries := [
        { op := opFileCreate, path := ["a", "f"], checksum := "c" },
        { op := opFileDelete, path := ["a", "g"],
          original := some { mode := 0o644, checksum := "o",
                             backupPath := ["b", "o"] } },
        { op := opDirCreate, path := ["a", "d"] }] } {}
      [(["a"], FsObj.dir 0o755), (["a", "g"], FsObj.file "o" 0o644)]
      (by decide)
    rw [h.1]
    decide

/-- C6 counterexample: the claim says both `RecordFileDelete` and
`PrepareOverwrite` return a benign "nothing to back up" signal on a
nonexistent path. False for `RecordFileDelete`: its opening
`os.Lstat` failure is returned as an error with no not-exist branch.
On the empty filesystem, `PrepareOverwrite` of a missing path is the
benign `(none, unchanged fs)`, while `RecordFileDelete` of the same
path is the "stat file" error. -/
theorem recordFileDelete_missing_path_is_error :
    PrepareOverwrite ["root", "bk"] "pkg" [] ["opt", "gone"] = .ok (none, []) ∧
    RecordFileDelete ["root", "bk"] "pkg" [] ["opt", "gone"] 7 = .error "stat file" :=
  ⟨rfl, rfl⟩

/-- C6 as amended: only `PrepareOverwrite` has the benign branch. For
every filesystem and nonexistent path, `PrepareOverwrite` returns the
benign none-original with the filesystem untouched, and
`RecordFileDelete` returns the stat error. -/
theorem prepareOverwrite_benign_recordFileDelete_error (backupDir : Path)
    (pkg : String) (fs : FS) (p : Path) (now : Nat) (h : fsGet fs p = none) :
    PrepareOverwrite backupDir pkg fs p = .ok (none, fs) ∧
    RecordFileDelete backupDir pkg fs p now = .error "stat file" := by
  constructor
  · simp [PrepareOverwrite, h]
  · simp [RecordFileDelete, h]

/-- C6 amended witness at a concrete missing path. -/
theorem prepareOverwrite_benign_recordFileDelete_error_witness :
    fsGet ([(["etc"], FsObj.dir 0o755)] : FS) ["opt", "gone"] = none ∧
    (PrepareOverwrite ["root", "bk"] "pkg" [(["etc"], FsObj.dir 0o755)] ["opt", "gone"]
        = .ok (none, [(["etc"], FsObj.dir 0o755)]) ∧
     RecordFileDelete ["root", "bk"] "pkg" [(["etc"], FsObj.dir 0o755)] ["opt", "gone"] 7
        = .error "stat file") :=
  ⟨rfl, prepareOverwrite_benign_recordFileDelete_error ["root", "bk"] "pkg"
    [(["etc"], FsObj.dir 0o755)] ["opt", "gone"] 7 rfl⟩

/-- C9 counterexample: the claim says reverse replay *always* returns a
"no backup path" ReplayError for a `file_delete` entry whose displaced
object was a symlink. Not when something exists at the path: the
exists-check precedes the backup-path check, so the entry is skipped
with zero errors. -/
theorem symlink_delete_entry_skipped_when_path_present :
    let e : Entry :=
      { op := opFileDelete, path := ["etc", "config"],
        original := some { mode := 0o777, target := "/opt/x" } }
    let fs0 : FS := [(["etc"], .dir 0o755), (["etc", "config"], .file "z" 0o644)]
    (ReverseReplayGo { entries := [e] } {} fs0).2.1.errors = [] ∧
    (ReverseReplayGo { entries := [e] } {} fs0).2.1.skipped = 1 ∧
    (ReverseReplayGo { entries := [e] } {} fs0).2.2.1 = [(e, "skip (exists)")] ∧
    (ReverseReplayGo { entries := [e] } {} fs0).2.2.2 = fs0 := by
  decide

/-- C9 as amended: for every `file_delete` entry whose original was a
symlink (target recorded, backup path empty) — the exact shape
`RecordFileDelete` produces for a symlink, as the last conjunct shows —
`replayFileDelete` never modifies the filesystem (in particular it never
recreates the symlink, although the recorded target would allow it);
when the path is absent at replay time the entry draws the
"no backup path" ReplayError (dry-run included, since the check precedes
the dry-run exit); when something exists at the path it is skipped. -/
theorem symlink_original_never_restored (e : Entry) (o : OriginalFile)
    (opts : ReplayOptions) (fs : FS)
    (hop : e.op = opFileDelete) (ho : e.original = some o)
    (htg : o.target ≠ "") (hbp : o.backupPath = []) :
    (replayFileDelete e opts fs).2.2 = fs ∧
    (fsGet fs e.path = none →
      replayFileDelete e opts fs = ("error", some (.other "no backup path"), fs) ∧
      (ReverseReplayGo { entries := [e] } opts fs).2.1.errors =
        [⟨e, .other "no backup path"⟩]) ∧
    ((fsGet fs e.path).isSome →
      replayFileDelete e opts fs = ("skip (exists)", some .skipped, fs)) ∧
    (∀ (bd : Path) (pk : String) (fsr : FS) (p : Path) (now : Nat) (t : String) (m : Nat),
      fsGet fsr p = some (.symlink t m) →
      RecordFileDelete bd pk fsr p now =
        .ok ({ op := opFileDelete, path := p, ts := now,
               original := some { mode := m, uid := 0, gid := 0, target := t } }, fsr)) := by
  refine ⟨?_, ?_, ?_, ?_⟩
  · by_cases hex : (fsGet fs e.path).isSome
    · simp [replayFileDelete, ho, hex]
    · simp [replayFileDelete, ho, hex, hbp]
  · intro habs
    have hfd : replayFileDelete e opts fs =
        ("error", some (.other "no backup path"), fs) := by
      simp [replayFileDelete, ho, habs, hbp]
    refine ⟨hfd, ?_⟩
    have hre : replayEntry e opts fs =
        ("error", some (.other "no backup path"), fs) := by
      rw [replayEntry, if_neg, if_pos hop]
      · exact hfd
      · rw [hop]; decide
    show (replayDelta opts [e] fs).1.errors = _
    rw [replayDelta_cons]
    simp only [replayStep]
    rw [hre]
    simp [replayDelta, addResult]
  · intro hex
    simp [replayFileDelete, ho, hex]
  · intro bd pk fsr p now t m hget
    simp [RecordFileDelete, hget]

/-- C9 amended witness: a symlink-displacing delete entry on a
filesystem where the path is absent draws the error and leaves the
filesystem untouched; the entry shape is what the Recorder emits. -/
theorem symlink_original_never_restored_witness :
    (replayFileDelete
        { op := opFileDelete, path := ["etc", "ln"],
          original := some { mode := 0o777, target := "/opt/x" } }
        {} [(["etc"], FsObj.dir 0o755)]).2.2 = [(["etc"], FsObj.dir 0o755)] ∧
    replayFileDelete
        { op := opFileDelete, path := ["etc", "ln"],
          original := some { mode := 0o777, target := "/opt/x" } }
        {} [(["etc"], FsObj.dir 0o755)] =
      ("error", some (.other "no backup path"), [(["etc"], FsObj.dir 0o755)]) ∧
    RecordFileDelete ["b"] "pkg" [(["etc", "ln"], FsObj.symlink "/opt/x" 0o777)]
        ["etc", "ln"] 9 =
      .ok ({ op := opFileDelete, path := ["etc", "ln"], ts := 9,
             original := some { mode := 0o777, uid := 0, gid := 0,
                                target := "/opt/x" } },
           [(["etc", "ln"], FsObj.symlink "/opt/x" 0o777)]) := by
  have h := symlink_original_never_restored
    { op := opFileDelete, path := ["etc", "ln"],
      original := some { mode := 0o777, target := "/opt/x" } }
    { mode := 0o777, target := "/opt/x" } {} [(["etc"], FsObj.dir 0o755)]
    rfl rfl (by decide) rfl
  exact ⟨h.1, (h.2.1 rfl).1, h.2.2.2 ["b"] "pkg"
    [(["etc", "ln"], FsObj.symlink "/opt/x" 0o777)] ["etc", "ln"] 9 "/opt/x" 0o777 rfl⟩

/-- C4: for every ledger, options and filesystem, `ReverseReplay`
returns a `nil` top-level error; every entry contributes to exactly one
of `processed`, `skipped` or `errors` (so the loop visits all entries
and continues past failures); and every entry with an unknown operation
string lands in the errors list as an "unknown operation" ReplayError. -/
theorem reverseReplay_no_top_error_accumulates (l : Ledger)
    (opts : ReplayOptions) (fs : FS) :
    (ReverseReplayGo l opts fs).1 = none ∧
    (ReverseReplayGo l opts fs).2.1.processed +
      (ReverseReplayGo l opts fs).2.1.skipped +
      (ReverseReplayGo l opts fs).2.1.errors.length = l.entries.length ∧
    (∀ e ∈ l.entries,
      e.op ≠ opFileCreate → e.op ≠ opFileDelete → e.op ≠ opFileOverwrite →
      e.op ≠ opDirCreate → e.op ≠ opSymlinkCreate → e.op ≠ opHardlinkCreate →
      (⟨e, .other ("unknown operation: " ++ e.op)⟩ : ReplayError) ∈
        (ReverseReplayGo l opts fs).2.1.errors) := by
  refine ⟨rfl, ?_, ?_⟩
  · have h := replayDelta_count opts l.entries.reverse fs
    simpa using h
  · intro e he h1 h2 h3 h4 h5 h6
    exact replayDelta_unknown_mem opts l.entries.reverse fs e
      (List.mem_reverse.mpr he) h1 h2 h3 h4 h5 h6

/-- C4 witness: a one-entry ledger with a bogus op string yields no
top-level error and one accumulated unknown-operation ReplayError. -/
theorem reverseReplay_no_top_error_accumulates_witness :
    (ReverseReplayGo { entries := [{ op := "bogus", path := ["x"] }] } {} []).1
        = none ∧
    (⟨{ op := "bogus", path := ["x"] }, .other ("unknown operation: " ++ "bogus")⟩ :
        ReplayError) ∈
      (ReverseReplayGo { entries := [{ op := "bogus", path := ["x"] }] } {} []).2.1.errors := by
  have h := reverseReplay_no_top_error_accumulates
    { entries := [{ op := "bogus", path := ["x"] }] } {} []
  refine ⟨h.1, ?_⟩
  exact h.2.2 { op := "bogus", path := ["x"] } (List.mem_singleton_self _)
    (by decide) (by decide) (by decide) (by decide) (by decide) (by decide)

theorem installLoopGo_append_ok (exec : Step → World → Except String World)
    (pre : List Step) :
    ∀ (idx : Nat) (w wi : World), execSteps exec pre w = .ok wi →
    ∀ rest, installLoopGo exec (pre ++ rest) idx w =
      installLoopGo exec rest (idx + pre.length) wi := by
  induction pre with
  | nil =>
      intro idx w wi h rest
      cases h
      simp [installLoopGo]
  | cons s pre ih =>
      intro idx w wi h rest
      cases hs : exec s w with
      | error e =>
          rw [execSteps, hs] at h
          exact absurd h (by simp)
      | ok w' =>
          rw [execSteps, hs] at h
          simp only at h
          have h3 := ih (idx + 1) w' wi h rest
          have harith : idx + 1 + pre.length = idx + (s :: pre).length := by
            simp only [List.length_cons]
            omega
          show installLoopGo exec (s :: (pre ++ rest)) idx w = _
          simp only [installLoopGo, hs]
          rw [h3, harith]

/-- C5: whenever any install step fails, the `Install` loop invokes
reverse replay over the entries recorded so far with `force=true`, the
ledger file is deleted, and the call returns (not success but) an error
that wraps the original step error and names the failing step's 1-based
index and type. Quantified over every step executor, every successful
prefix and every failing step. -/
theorem install_step_failure_rolls_back
    (exec : Step → World → Except String World) (pre rest : List Step) (s : Step)
    (w wi : World) (e : String)
    (hpre : execSteps exec pre w = .ok wi) (hs : exec s wi = .error e) :
    installLoopGo exec (pre ++ s :: rest) 0 w =
      (some (stepErrorMsg pre.length s e),
       { rollbackGo wi with ledgerFileExists := false }) ∧
    stepErrorMsg pre.length s e =
      "step " ++ toString (pre.length + 1) ++ " (" ++ s.type ++ "): " ++ e ∧
    (installLoopGo exec (pre ++ s :: rest) 0 w).1 ≠ none ∧
    ({ rollbackGo wi with ledgerFileExists := false } : World).fs =
      (ReverseReplayGo { entries := wi.ledgerEntries } { force := true } wi.fs).2.2.2 ∧
    ({ rollbackGo wi with ledgerFileExists := false } : World).ledgerFileExists
      = false := by
  have h1 := installLoopGo_append_ok exec pre 0 w wi hpre (s :: rest)
  have h2 : installLoopGo exec (s :: rest) (0 + pre.length) wi =
      (some (stepErrorMsg (0 + pre.length) s e),
       { rollbackGo wi with ledgerFileExists := false }) := by
    rw [installLoopGo, hs]
  refine ⟨?_, rfl, ?_, rfl, rfl⟩
  · rw [h1, h2]
    simp
  · rw [h1, h2]
    simp

/-- C5 witness: a concrete two-step program whose second step fails is
rolled back (the recorded file-create entry is undone with force), the
ledger file is deleted, and the surfaced error names step 2 and wraps
the step's own message. -/
theorem install_step_failure_rolls_back_witness :
    let exec : Step → World → Except String World := fun s w =>
      if s.type = "run" then .error "command failed"
      else .ok { w with
        fs := fsSet w.fs ["usr", "bin", "tool"] (FsObj.file "h1" 0o755),
        ledgerEntries := w.ledgerEntries ++
          [{ op := opFileCreate, path := ["usr", "bin", "tool"], checksum := "h1" }] }
    let w0 : World :=
      { fs := [(["usr"], FsObj.dir 0o755), (["usr", "bin"], FsObj.dir 0o755)],
        ledgerEntries := [], ledgerFileExists := true }
    execSteps exec [{ type := "copy" }] w0 =
      .ok { fs := [(["usr"], FsObj.dir 0o755), (["usr", "bin"], FsObj.dir 0o755),
                   (["usr", "bin", "tool"], FsObj.file "h1" 0o755)],
            ledgerEntries :=
              [{ op := opFileCreate, path := ["usr", "bin", "tool"], checksum := "h1" }],
            ledgerFileExists := true } ∧
    exec { type := "run" }
        { fs := [(["usr"], FsObj.dir 0o755), (["usr", "bin"], FsObj.dir 0o755),
                 (["usr", "bin", "tool"], FsObj.file "h1" 0o755)],
          ledgerEntries :=
            [{ op := opFileCreate, path := ["usr", "bin", "tool"], checksum := "h1" }],
          ledgerFileExists := true } = .error "command failed" ∧
    installLoopGo exec [{ type := "copy" }, { type := "run" }] 0 w0 =
      (some "step 2 (run): command failed",
       { fs := [(["usr"], FsObj.dir 0o755), (["usr", "bin"], FsObj.dir 0o755)],
         ledgerEntries :=
           [{ op := opFileCreate, path := ["usr", "bin", "tool"], checksum := "h1" }],
         ledgerFileExists := false }) := by
  refine ⟨rfl, rfl, ?_⟩
  have h := install_step_failure_rolls_back
    (fun s w =>
      if s.type = "run" then .error "command failed"
      else .ok { w with
        fs := fsSet w.fs ["usr", "bin", "tool"] (FsObj.file "h1" 0o755),
        ledgerEntries := w.ledgerEntries ++
          [{ op := opFileCreate, path := ["usr", "bin", "tool"], checksum := "h1" }] })
    [{ type := "copy" }] [] { type := "run" }
    { fs := [(["usr"], FsObj.dir 0o755), (["usr", "bin"], FsObj.dir 0o755)],
      ledgerEntries := [], ledgerFileExists := true }
    { fs := [(["usr"], FsObj.dir 0o755), (["usr", "bin"], FsObj.dir 0o755),
             (["usr", "bin", "tool"], FsObj.file "h1" 0o755)],
      ledgerEntries :=
        [{ op := opFileCreate, path := ["usr", "bin", "tool"], checksum := "h1" }],
      ledgerFileExists := true }
    "command failed" rfl rfl
  exact h.1.trans (by decide)

theorem self_mem_pathAncestors (p : Path) (h : p ≠ []) : p ∈ pathAncestors p := by
  induction p with
  | nil => exact absurd rfl h
  | cons x rest ih =>
      cases rest with
      | nil => simp [pathAncestors]
      | cons y t =>
          rw [pathAncestors]
          apply List.mem_cons_of_mem
          exact List.mem_map.mpr ⟨y :: t, ih (by simp), rfl⟩

/-- C10: a `file_overwrite` entry whose path is absent at replay time
and whose backup exists is not reported as drift and not an error: the
`os.IsNotExist` exemptions let the missing destination pass the drift
check, and the original is restored from backup with the label
"restored". This settles the spec's open question about a missing
destination during overwrite replay. -/
theorem overwrite_missing_destination_restores (e : Entry) (o : OriginalFile)
    (opts : ReplayOptions) (fs fs1 : FS) (cb : String) (mb : Nat)
    (hop : e.op = opFileOverwrite)
    (ho : e.original = some o) (hbp : o.backupPath ≠ [])
    (habs : fsGet fs e.path = none)
    (hback : fsGet fs o.backupPath = some (.file cb mb))
    (hdry : opts.dryRun = false)
    (hmk : mkdirAll fs e.path.dropLast = .ok fs1) :
    ∃ fs', replayFileOverwrite e opts fs = ("restored", none, fs') ∧
      fsGet fs' e.path = some (.file cb o.mode) ∧
      ReverseReplayGo { entries := [e] } opts fs =
        (none, { processed := 1 }, [(e, "restored")], fs') := by
  have hpne : e.path ≠ o.backupPath := fun he => by
    rw [he, hback] at habs
    exact absurd habs (by simp)
  have hrm0 : osRemoveIgnore fs e.path = fs := by
    simp [osRemoveIgnore, habs]
  have hback1 : fsGet fs1 o.backupPath = some (.file cb mb) :=
    mkdirAll_preserve fs fs1 _ _ _ hmk hback
  have habs1 : fsGet fs1 e.path = none := by
    rw [mkdirAll_get_notMem fs fs1 _ _ hmk (self_notMem_ancestors_dropLast e.path)]
    exact habs
  have hcp : copyFile fs1 o.backupPath e.path =
      .ok (fsSet fs1 e.path (.file cb 0o666)) := by
    unfold copyFile
    rw [hback1, habs1]
    by_cases hde : e.path.dropLast.isEmpty
    · simp [hde]
    · have hdl : e.path.dropLast ≠ [] := by
        intro hx
        rw [hx] at hde
        exact hde rfl
      obtain ⟨md, hmd⟩ := mkdirAll_dirs fs fs1 _ hmk e.path.dropLast
        (self_mem_pathAncestors _ hdl)
      simp [hde, hmd]
  have hch : chmodIgnore (fsSet fs1 e.path (.file cb 0o666)) e.path o.mode =
      fsSet (fsSet fs1 e.path (.file cb 0o666)) e.path (.file cb o.mode) := by
    unfold chmodIgnore
    rw [fsGet_fsSet]
    simp
  have hget3 : fsGet (fsSet (fsSet fs1 e.path (.file cb 0o666)) e.path
      (.file cb o.mode)) e.path = some (.file cb o.mode) := by
    rw [fsGet_fsSet]
    simp
  have hov : replayFileOverwrite e opts fs = ("restored", none,
      if !opts.keepBackups then
        osRemoveIgnore (fsSet (fsSet fs1 e.path (.file cb 0o666)) e.path
          (.file cb o.mode)) o.backupPath
      else fsSet (fsSet fs1 e.path (.file cb 0o666)) e.path (.file cb o.mode)) := by
    unfold replayFileOverwrite
    rw [ho]
    simp only [hbp, if_neg, Bool.false_eq_true, not_false_eq_true]
    have hcheck : (if e.checksum ≠ "" then
        match checksumAt fs e.path with
        | .readErr => some ("error", some (ReplayErrKind.other "verify checksum"), fs)
        | .got c =>
            if c ≠ e.checksum then some ("modified", some ReplayErrKind.modified, fs)
            else none
        | .absent => none
      else none) = (none : Option (String × Option ReplayErrKind × FS)) := by
      have hca : checksumAt fs e.path = .absent := by
        simp [checksumAt, habs]
      by_cases hcs : e.checksum = "" <;> simp [hcs, hca]
    rw [hcheck]
    simp only [hdry, Bool.false_eq_true, if_neg, not_false_eq_true, if_false]
    rw [hrm0, hmk]
    simp only
    rw [hcp]
    simp only
    rw [hch]
  refine ⟨_, hov, ?_, ?_⟩
  · by_cases hkb : opts.keepBackups
    · simp only [hkb, Bool.not_true, Bool.false_eq_true, if_neg, not_false_eq_true,
        if_false]
      exact hget3
    · simp only [hkb, Bool.not_false, if_pos]
      rw [osRemoveIgnore_get_ne _ _ _ (fun hx => hpne hx.symm)]
      exact hget3
  · have hre : replayEntry e opts fs = ("restored", none,
        if !opts.keepBackups then
          osRemoveIgnore (fsSet (fsSet fs1 e.path (.file cb 0o666)) e.path
            (.file cb o.mode)) o.backupPath
        else fsSet (fsSet fs1 e.path (.file cb 0o666)) e.path (.file cb o.mode)) := by
      rw [replayEntry, if_neg (by rw [hop]; decide), if_neg (by rw [hop]; decide),
        if_pos hop]
      exact hov
    show (none, replayDelta opts [e] fs) = _
    rw [replayDelta_cons]
    simp only [replayStep]
    rw [hre]
    simp [replayDelta, addResult]

/-- C10 witness: a concrete overwrite entry with its destination absent
and backup present restores cleanly. -/
theorem overwrite_missing_destination_restores_witness :
    ∃ fs', replayFileOverwrite
        { op := opFileOverwrite, path := ["etc", "config"], checksum := "new",
          original := some { mode := 0o600, checksum := "old",
                             backupPath := ["home", "bk", "old"] } }
        {} [(["etc"], FsObj.dir 0o755), (["home"], FsObj.dir 0o755),
            (["home", "bk"], FsObj.dir 0o755),
            (["home", "bk", "old"], FsObj.file "old" 0o644)] =
      ("restored", none, fs') ∧
      fsGet fs' ["etc", "config"] = some (.file "old" 0o600) ∧
      ReverseReplayGo
          { entries :=
              [{ op := opFileOverwrite, path := ["etc", "config"], checksum := "new",
                 original := some { mode := 0o600, checksum := "old",
                                    backupPath := ["home", "bk", "old"] } }] }
          {} [(["etc"], FsObj.dir 0o755), (["home"], FsObj.dir 0o755),
              (["home", "bk"], FsObj.dir 0o755),
              (["home", "bk", "old"], FsObj.file "old" 0o644)] =
        (none, { processed := 1 },
         [({ op := opFileOverwrite, path := ["etc", "config"], checksum := "new",
             original := some { mode := 0o600, checksum := "old",
                                backupPath := ["home", "bk", "old"] } },
           "restored")], fs') :=
  overwrite_missing_destination_restores
    { op := opFileOverwrite, path := ["etc", "config"], checksum := "new",
      original := some { mode := 0o600, checksum := "old",
                         backupPath := ["home", "bk", "old"] } }
    { mode := 0o600, checksum := "old", backupPath := ["home", "bk", "old"] }
    {} [(["etc"], FsObj.dir 0o755), (["home"], FsObj.dir 0o755),
        (["home", "bk"], FsObj.dir 0o755),
        (["home", "bk", "old"], FsObj.file "old" 0o644)]
    [(["etc"], FsObj.dir 0o755), (["home"], FsObj.dir 0o755),
     (["home", "bk"], FsObj.dir 0o755),
     (["home", "bk", "old"], FsObj.file "old" 0o644)]
    "old" 0o644 rfl rfl (by decide) rfl rfl rfl rfl

/-- C8: backup creation is content-idempotent. For a package whose
backup directory chain is in place (first hypothesis set), backing up a
first displaced original of checksum `c` creates exactly one backup
file, at `<backup_root>/<package>/<c>`; backing up a second displaced
original with the same checksum skips the copy, returns the same path,
and leaves the filesystem exactly as it was; and nothing outside that
one file and the package's directory chain is touched. -/
theorem backup_dedup_single_file (backupDir : Path) (pkg : String) (fs fsd : FS)
    (p p' : Path) (c : String) (m m' : Nat)
    (hsrc : fsGet fs p = some (.file c m))
    (hmk : mkdirAll fs (backupDir ++ [pkg]) = .ok fsd)
    (hfresh : fsGet fsd (backupDir ++ [pkg] ++ [c]) = none)
    (hsrc' : fsGet (fsSet fsd (backupDir ++ [pkg] ++ [c]) (.file c 0o666)) p'
        = some (.file c m')) :
    createBackup backupDir pkg fs p c =
      .ok (backupDir ++ [pkg] ++ [c],
           fsSet fsd (backupDir ++ [pkg] ++ [c]) (.file c 0o666)) ∧
    createBackup backupDir pkg
        (fsSet fsd (backupDir ++ [pkg] ++ [c]) (.file c 0o666)) p' c =
      .ok (backupDir ++ [pkg] ++ [c],
           fsSet fsd (backupDir ++ [pkg] ++ [c]) (.file c 0o666)) ∧
    (∀ q : Path,
      fsGet (fsSet fsd (backupDir ++ [pkg] ++ [c]) (.file c 0o666)) q ≠ fsGet fs q →
      q = backupDir ++ [pkg] ++ [c] ∨ q ∈ pathAncestors (backupDir ++ [pkg])) := by
  have hsrcd : fsGet fsd p = some (.file c m) :=
    mkdirAll_preserve fs fsd _ _ _ hmk hsrc
  have hbig : backupDir ++ [pkg] ++ [c] ∉ pathAncestors (backupDir ++ [pkg]) := by
    intro hm
    have := (pathAncestors_length _ _ hm).1
    simp [List.length_append] at this
  have hfresh2 : fsGet fsd (backupDir ++ [pkg, c]) = none := by
    simpa [List.append_assoc] using hfresh
  refine ⟨?_, ?_, ?_⟩
  · simp [createBackup, hmk, hfresh2, hsrcd]
  · have hall : ∀ q ∈ pathAncestors (backupDir ++ [pkg]),
        ∃ mo, fsGet (fsSet fsd (backupDir ++ [pkg] ++ [c]) (.file c 0o666)) q
          = some (.dir mo) := by
      intro q hq
      obtain ⟨mo, hmo⟩ := mkdirAll_dirs fs fsd _ hmk q hq
      refine ⟨mo, ?_⟩
      rw [fsGet_fsSet]
      have : ¬ backupDir ++ [pkg] ++ [c] = q := by
        intro hx
        exact hbig (hx ▸ hq)
      rw [if_neg this]
      exact hmo
    have hmk2 : mkdirAll (fsSet fsd (backupDir ++ [pkg] ++ [c]) (.file c 0o666))
        (backupDir ++ [pkg]) =
        .ok (fsSet fsd (backupDir ++ [pkg] ++ [c]) (.file c 0o666)) :=
      mkdirAll_idem _ _ hall
    have hin : fsGet (fsSet fsd (backupDir ++ [pkg] ++ [c]) (.file c 0o666))
        (backupDir ++ [pkg] ++ [c]) = some (.file c 0o666) := by
      rw [fsGet_fsSet]
      simp
    have hin2 : fsGet (fsSet fsd (backupDir ++ [pkg, c]) (.file c 0o666))
        (backupDir ++ [pkg, c]) = some (.file c 0o666) := by
      simpa [List.append_assoc] using hin
    have hmk3 : mkdirAll (fsSet fsd (backupDir ++ [pkg, c]) (.file c 0o666))
        (backupDir ++ [pkg]) =
        .ok (fsSet fsd (backupDir ++ [pkg, c]) (.file c 0o666)) := by
      simpa [List.append_assoc] using hmk2
    simp [createBackup, hmk3, hin2]
  · intro q hne
    by_cases h1 : q = backupDir ++ [pkg] ++ [c]
    · exact Or.inl h1
    · right
      by_cases h2 : q ∈ pathAncestors (backupDir ++ [pkg])
      · exact h2
      · exfalso
        apply hne
        rw [fsGet_fsSet, if_neg (fun hx => h1 hx.symm)]
        exact mkdirAll_get_notMem fs fsd _ _ hmk h2

/-- C8 witness: two originals with equal content within one package
produce one backup file and the second put is a no-op returning the
same path. -/
theorem backup_dedup_single_file_witness :
    createBackup ["root", "bk"] "pkg"
        [(["root"], FsObj.dir 0o755), (["root", "bk"], FsObj.dir 0o755),
         (["root", "bk", "pkg"], FsObj.dir 0o755),
         (["etc", "a"], FsObj.file "c0" 0o644), (["etc", "b"], FsObj.file "c0" 0o600)]
        ["etc", "a"] "c0" =
      .ok (["root", "bk", "pkg", "c0"],
           fsSet [(["root"], FsObj.dir 0o755), (["root", "bk"], FsObj.dir 0o755),
                  (["root", "bk", "pkg"], FsObj.dir 0o755),
                  (["etc", "a"], FsObj.file "c0" 0o644),
                  (["etc", "b"], FsObj.file "c0" 0o600)]
             ["root", "bk", "pkg", "c0"] (FsObj.file "c0" 0o666)) ∧
    createBackup ["root", "bk"] "pkg"
        (fsSet [(["root"], FsObj.dir 0o755), (["root", "bk"], FsObj.dir 0o755),
                (["root", "bk", "pkg"], FsObj.dir 0o755),
                (["etc", "a"], FsObj.file "c0" 0o644),
                (["etc", "b"], FsObj.file "c0" 0o600)]
           ["root", "bk", "pkg", "c0"] (FsObj.file "c0" 0o666))
        ["etc", "b"] "c0" =
      .ok (["root", "bk", "pkg", "c0"],
           fsSet [(["root"], FsObj.dir 0o755), (["root", "bk"], FsObj.dir 0o755),
                  (["root", "bk", "pkg"], FsObj.dir 0o755),
                  (["etc", "a"], FsObj.file "c0" 0o644),
                  (["etc", "b"], FsObj.file "c0" 0o600)]
             ["root", "bk", "pkg", "c0"] (FsObj.file "c0" 0o666)) := by
  have h := backup_dedup_single_file ["root", "bk"] "pkg"
    [(["root"], FsObj.dir 0o755), (["root", "bk"], FsObj.dir 0o755),
     (["root", "bk", "pkg"], FsObj.dir 0o755),
     (["etc", "a"], FsObj.file "c0" 0o644), (["etc", "b"], FsObj.file "c0" 0o600)]
    [(["root"], FsObj.dir 0o755), (["root", "bk"], FsObj.dir 0o755),
     (["root", "bk", "pkg"], FsObj.dir 0o755),
     (["etc", "a"], FsObj.file "c0" 0o644), (["etc", "b"], FsObj.file "c0" 0o600)]
    ["etc", "a"] ["etc", "b"] "c0" 0o644 0o600 rfl rfl rfl (by decide)
  exact ⟨h.1, h.2.1⟩

theorem getD_ite_zero (n : Nat) : (if n = 0 then none else some n).getD 0 = n := by
  by_cases h : n = 0 <;> simp [h]

theorem getD_ite_zero_int (n : Int) : (if n = 0 then none else some n).getD 0 = n := by
  by_cases h : n = 0 <;> simp [h]

theorem getD_ite_empty (s : String) :
    (if s = "" then none else some s).getD "" = s := by
  by_cases h : s = "" <;> simp [h]

theorem decodeOriginal_encodeOriginal (o : OriginalFile) :
    decodeOriginal (encodeOriginal o) = o := by
  cases o
  simp [encodeOriginal, decodeOriginal, getD_ite_empty]

theorem decodeEntry_encodeEntry (e : Entry) : decodeEntry (encodeEntry e) = e := by
  cases e with
  | mk op path ts mode uid gid size checksum target original =>
      cases original with
      | none =>
          simp [encodeEntry, decodeEntry, getD_ite_zero, getD_ite_zero_int,
            getD_ite_empty]
      | some o =>
          simp [encodeEntry, decodeEntry, getD_ite_zero, getD_ite_zero_int,
            getD_ite_empty, decodeOriginal_encodeOriginal]

theorem decodeHeader_encodeHeader (h : Header) :
    decodeHeader (encodeHeader h) = h := by
  cases h
  simp [encodeHeader, decodeHeader, getD_ite_empty]

theorem recordAllGo_spec (recs : List (Entry × Nat)) :
    ∀ st : Ledger × LedgerFile,
    recordAllGo st recs =
      ({ header := st.1.header,
         entries := st.1.entries ++
           recs.map (fun en => if en.1.ts = 0 then { en.1 with ts := en.2 } else en.1) },
       { header := st.2.header,
         lines := st.2.lines ++
           recs.map (fun en =>
             encodeEntry (if en.1.ts = 0 then { en.1 with ts := en.2 } else en.1)) }) := by
  induction recs with
  | nil => intro st; simp [recordAllGo]
  | cons en recs ih =>
      intro st
      show recordAllGo (recordGo st en.1 en.2) recs = _
      rw [ih]
      simp [recordGo, List.append_assoc]

/-- C7: for every sequence of entries passed to `record` on a ledger
made by `create`, a subsequent `open` parses back exactly the recorded
sequence, in order, preceded by the header: JSON-line serialization
followed by parsing is the identity on the recorded sequence. The
recorded sequence itself is the passed sequence with each unset (zero)
timestamp populated at record time; when every passed entry carries a
timestamp it is the passed sequence verbatim. -/
theorem record_open_round_trip (pkg source : String) (now : Nat)
    (recs : List (Entry × Nat)) :
    openPathGo (recordAllGo (createGo pkg source now) recs).2 =
      .ok (recordAllGo (createGo pkg source now) recs).1 ∧
    (recordAllGo (createGo pkg source now) recs).1.entries =
      recs.map (fun en => if en.1.ts = 0 then { en.1 with ts := en.2 } else en.1) ∧
    ((∀ en ∈ recs, en.1.ts ≠ 0) →
      (recordAllGo (createGo pkg source now) recs).1.entries = recs.map Prod.fst) := by
  have hspec := recordAllGo_spec recs (createGo pkg source now)
  rw [hspec]
  refine ⟨?_, ?_, ?_⟩
  · simp only [createGo, openPathGo, decodeHeader_encodeHeader]
    rw [if_neg (by simp [currentVersion])]
    simp [List.map_map, Function.comp, decodeEntry_encodeEntry]
  · simp [createGo]
  · intro hall
    simp only [createGo, List.nil_append]
    apply List.map_congr_left
    intro en hen
    simp [hall en hen]

/-- C7 witness: a two-entry record sequence (one entry with a set
timestamp, one without) opens back as exactly the recorded sequence;
with both timestamps set it is the passed sequence itself. -/
theorem record_open_round_trip_witness :
    (openPathGo (recordAllGo (createGo "rg" "https://rg" 11)
        [({ op := opDirCreate, path := ["a"], ts := 3 }, 5),
         ({ op := opFileCreate, path := ["a", "f"], checksum := "c" }, 7)]).2 =
      .ok (recordAllGo (createGo "rg" "https://rg" 11)
        [({ op := opDirCreate, path := ["a"], ts := 3 }, 5),
         ({ op := opFileCreate, path := ["a", "f"], checksum := "c" }, 7)]).1) ∧
    (recordAllGo (createGo "rg" "https://rg" 11)
        [({ op := opDirCreate, path := ["a"], ts := 3 }, 5),
         ({ op := opFileCreate, path := ["a", "f"], checksum := "c" }, 7)]).1.entries =
      [{ op := opDirCreate, path := ["a"], ts := 3 },
       { op := opFileCreate, path := ["a", "f"], ts := 7, checksum := "c" }] ∧
    ((∀ en ∈ [(({ op := opDirCreate, path := ["a"], ts := 3 } : Entry), 5)],
        en.1.ts ≠ 0) →
      (recordAllGo (createGo "rg" "https://rg" 11)
        [({ op := opDirCreate, path := ["a"], ts := 3 }, 5)]).1.entries =
      [{ op := opDirCreate, path := ["a"], ts := 3 }]) := by
  have h2 := record_open_round_trip "rg" "https://rg" 11
    [({ op := opDirCreate, path := ["a"], ts := 3 }, 5),
     ({ op := opFileCreate, path := ["a", "f"], checksum := "c" }, 7)]
  have h1 := record_open_round_trip "rg" "https://rg" 11
    [({ op := opDirCreate, path := ["a"], ts := 3 }, 5)]
  refine ⟨h2.1, h2.2.1.trans (by decide), fun hin => (h1.2.2 hin).trans (by decide)⟩

/-- C3 counterexample: the claim quantifies over every entry with a
non-empty checksum, but `hardlink_create` entries carry a checksum the
replayer never re-verifies (`replayHardlinkCreate` has no drift check).
A mutated hardlink (recorded checksum `c1`, on-disk `c2`) is deleted
with `force=false`: the file does not survive, the path is not in
`modified_files`, and `errors` stays empty — refuting the claim as
stated at this input. -/
theorem hardlink_drift_deleted_unflagged :
    let e : Entry :=
      { op := opHardlinkCreate, path := ["usr", "bin", "ln1"], checksum := "c1",
        target := "/usr/bin/tool" }
    let fs0 : FS := [(["usr"], .dir 0o755), (["usr", "bin"], .dir 0o755),
      (["usr", "bin", "ln1"], .file "c2" 0o755)]
    ReverseReplayGo { entries := [e] } {} fs0 =
      (none, { processed := 1 }, [(e, "removed")],
       [(["usr"], .dir 0o755), (["usr", "bin"], .dir 0o755)]) := by
  decide

/-- C3 as amended: for every ledger containing a drift-checked entry
with a non-empty checksum — a `file_create` entry, or a `file_overwrite`
entry with its original and backup recorded; these are the two ops whose
replay re-verifies the checksum, while `hardlink_create` is deleted
unverified (see the counterexample) — whose file has been externally
mutated by the time that entry is replayed, reverse replay with
`force=false` appends the path to `modified_files`, appends that entry
to `errors`, leaves the file on disk unchanged (its drifted content
survives, given that no other entry's undo writes that path), and still
processes every other entry exactly as it would have without the
drifted entry: same final filesystem, same processed and skipped
counts, and the same error and modified lists with only the drifted
entry's contributions inserted. -/
theorem drift_without_force_soft_error_isolated
    (pre suf : List Entry) (e : Entry) (opts : ReplayOptions) (fs : FS)
    (c : String) (m : Nat)
    (hforce : opts.force = false)
    (hdrift : e.op = opFileCreate ∨
      (e.op = opFileOverwrite ∧ ∃ o, e.original = some o ∧ o.backupPath ≠ []))
    (hcs : e.checksum ≠ "")
    (hget : fsGet (replayDelta opts suf.reverse fs).2.2 e.path = some (.file c m))
    (hne : c ≠ e.checksum)
    (hpre : ∀ e' ∈ pre, e.path ∉ entryWrites e') :
    (ReverseReplayGo { entries := pre ++ e :: suf } opts fs).1 = none ∧
    fsGet (ReverseReplayGo { entries := pre ++ e :: suf } opts fs).2.2.2 e.path
      = some (.file c m) ∧
    (∃ E1 E2 M1 M2,
      (ReverseReplayGo { entries := pre ++ e :: suf } opts fs).2.1.errors
        = E1 ++ ⟨e, .modified⟩ :: E2 ∧
      (ReverseReplayGo { entries := pre ++ suf } opts fs).2.1.errors = E1 ++ E2 ∧
      (ReverseReplayGo { entries := pre ++ e :: suf } opts fs).2.1.modifiedFiles
        = M1 ++ e.path :: M2 ∧
      (ReverseReplayGo { entries := pre ++ suf } opts fs).2.1.modifiedFiles
        = M1 ++ M2) ∧
    (ReverseReplayGo { entries := pre ++ e :: suf } opts fs).2.2.2
      = (ReverseReplayGo { entries := pre ++ suf } opts fs).2.2.2 ∧
    (ReverseReplayGo { entries := pre ++ e :: suf } opts fs).2.1.processed
      = (ReverseReplayGo { entries := pre ++ suf } opts fs).2.1.processed ∧
    (ReverseReplayGo { entries := pre ++ e :: suf } opts fs).2.1.skipped
      = (ReverseReplayGo { entries := pre ++ suf } opts fs).2.1.skipped := by
  have hentry : replayEntry e opts ((replayDelta opts suf.reverse fs).2.2) =
      ("modified", some .modified, (replayDelta opts suf.reverse fs).2.2) := by
    rcases hdrift with hop | ⟨hop, o, ho, hbp⟩
    · exact replayEntry_create_drift e opts _ hop c m hget hcs hne
    · exact replayEntry_overwrite_drift e opts _ hop o ho hbp c m hget hcs hne
  have hstep : replayStep opts ({}, [], (replayDelta opts suf.reverse fs).2.2) e =
      ({ errors := [⟨e, .modified⟩], modifiedFiles := [e.path] },
       [(e, "modified")], (replayDelta opts suf.reverse fs).2.2) := by
    simp only [replayStep]
    rw [hentry]
    simp [hforce]
  have hwith : ReverseReplayGo { entries := pre ++ e :: suf } opts fs =
      (none,
       addResult (replayDelta opts suf.reverse fs).1
         (addResult ({ errors := [⟨e, .modified⟩], modifiedFiles := [e.path] } :
              ReplayResult)
            (replayDelta opts pre.reverse
              (replayDelta opts suf.reverse fs).2.2).1),
       (replayDelta opts suf.reverse fs).2.1 ++
         ([(e, "modified")] ++
          (replayDelta opts pre.reverse
            (replayDelta opts suf.reverse fs).2.2).2.1),
       (replayDelta opts pre.reverse (replayDelta opts suf.reverse fs).2.2).2.2) := by
    show (none, replayDelta opts
        (({ entries := pre ++ e :: suf } : Ledger).entries.reverse) fs) = _
    have hrev1 : ({ entries := pre ++ e :: suf } : Ledger).entries.reverse
        = suf.reverse ++ e :: pre.reverse := by
      simp
    rw [hrev1, replayDelta_append, replayDelta_cons, hstep]
  have hwithout : ReverseReplayGo { entries := pre ++ suf } opts fs =
      (none,
       addResult (replayDelta opts suf.reverse fs).1
         (replayDelta opts pre.reverse (replayDelta opts suf.reverse fs).2.2).1,
       (replayDelta opts suf.reverse fs).2.1 ++
         (replayDelta opts pre.reverse (replayDelta opts suf.reverse fs).2.2).2.1,
       (replayDelta opts pre.reverse (replayDelta opts suf.reverse fs).2.2).2.2) := by
    show (none, replayDelta opts
        (({ entries := pre ++ suf } : Ledger).entries.reverse) fs) = _
    have hrev2 : ({ entries := pre ++ suf } : Ledger).entries.reverse
        = suf.reverse ++ pre.reverse := by
      simp
    rw [hrev2, replayDelta_append]
  have hfsfinal : fsGet
      (replayDelta opts pre.reverse (replayDelta opts suf.reverse fs).2.2).2.2
      e.path = some (.file c m) := by
    rw [replayDelta_get_ne opts pre.reverse _ e.path
      (fun e' he' => hpre e' (List.mem_reverse.mp he'))]
    exact hget
  refine ⟨?_, ?_, ?_, ?_, ?_, ?_⟩
  · rw [hwith]
  · rw [hwith]
    exact hfsfinal
  · refine ⟨(replayDelta opts suf.reverse fs).1.errors,
      (replayDelta opts pre.reverse (replayDelta opts suf.reverse fs).2.2).1.errors,
      (replayDelta opts suf.reverse fs).1.modifiedFiles,
      (replayDelta opts pre.reverse
        (replayDelta opts suf.reverse fs).2.2).1.modifiedFiles, ?_, ?_, ?_, ?_⟩
    · rw [hwith]
      simp [addResult]
    · rw [hwithout]
      simp [addResult]
    · rw [hwith]
      simp [addResult]
    · rw [hwithout]
      simp [addResult]
  · rw [hwith, hwithout]
  · rw [hwith, hwithout]
    simp [addResult]
  · rw [hwith, hwithout]
    simp [addResult]

/-- C3 amended witness: a three-entry ledger whose middle `file_create`
entry has drifted (recorded checksum `c1`, on-disk `c2`): the replay
without force flags it, errors on it, leaves the file, and still
processes the two directory entries. A drifted `file_overwrite` entry
behaves the same way: flagged, errored, file left with its drifted
content. -/
theorem drift_without_force_soft_error_isolated_witness :
    let e : Entry := { op := opFileCreate, path := ["t", "f"], checksum := "c1" }
    let d1 : Entry := { op := opDirCreate, path := ["t", "d1"] }
    let d2 : Entry := { op := opDirCreate, path := ["t", "d2"] }
    let fs0 : FS := [(["t"], FsObj.dir 0o755), (["t", "d1"], FsObj.dir 0o755),
      (["t", "d2"], FsObj.dir 0o755), (["t", "f"], FsObj.file "c2" 0o644)]
    let out := ReverseReplayGo { entries := [d1, e, d2] } {} fs0
    let e2 : Entry :=
      { op := opFileOverwrite, path := ["t", "g"], checksum := "x1",
        original := some { mode := 0o600, checksum := "x0",
                           backupPath := ["b", "x0"] } }
    let fs1 : FS := [(["t"], FsObj.dir 0o755), (["b"], FsObj.dir 0o755),
      (["t", "g"], FsObj.file "x2" 0o644), (["b", "x0"], FsObj.file "x0" 0o644)]
    let out2 := ReverseReplayGo { entries := [e2] } {} fs1
    (∀ e' ∈ [d1], (["t", "f"] : Path) ∉ entryWrites e') ∧
    fsGet (replayDelta {} [d2].reverse fs0).2.2 ["t", "f"]
      = some (.file "c2" 0o644) ∧
    fsGet out.2.2.2 ["t", "f"] = some (.file "c2" 0o644) ∧
    out.2.1.errors = [⟨e, .modified⟩] ∧
    out.2.1.processed = 2 ∧
    fsGet out2.2.2.2 ["t", "g"] = some (.file "x2" 0o644) ∧
    out2.2.1.errors = [⟨e2, .modified⟩] ∧
    out2.2.1.modifiedFiles = [["t", "g"]] := by
  intro e d1 d2 fs0 out e2 fs1 out2
  have h := drift_without_force_soft_error_isolated [d1] [d2] e {} fs0 "c2" 0o644
    rfl (Or.inl rfl) (by decide) (by decide) (by decide) (by decide)
  have h2 := drift_without_force_soft_error_isolated [] [] e2 {} fs1 "x2" 0o644
    rfl (Or.inr ⟨rfl, { mode := 0o600, checksum := "x0", backupPath := ["b", "x0"] },
      rfl, by decide⟩) (by decide) (by decide) (by decide) (by decide)
  exact ⟨by decide, by decide, h.2.1, by decide, by decide, h2.2.1,
    by decide, by decide⟩

end Alloy
